import Mathlib

/-!
Shallow embedding of the patient test-results data engine
(`loadPatientTestData/helpers.ts` and `timeline/useTimelineData.ts`):
paginated observation fetching, concept-based reconstruction of
panel/member relationships, range assessment, the bounded freshness
cache, and the timeline pivot.

Modelling conventions:
* JavaScript numbers used as observation values and range bounds are
  modelled as `ℚ`; timestamps (`Date.parse` results, `Date.now`) as `Int`.
* A JavaScript plain object used as a string-keyed map is modelled as an
  association list `List (key × value)` in insertion order; `assocSet`
  overwrites in place (keeping the key position) or appends, `assocGet`
  reads, exactly as property assignment / access behave for non-integer
  string keys.
* `null`/`undefined`-able fields are `Option`s; code that would throw a
  `TypeError` (reading a property of `undefined`) is embedded as a
  function returning `Option`/`none` at the faulting input.
* Remote responses are parameters: the paged observation endpoint is a
  function `Nat → FhirPage α` (page offset to response), the concept
  endpoint a function `ConceptUuid → ConceptRecord` (the record a GET of
  that uuid returns; its `uuid` field echoes the requested identifier),
  and the freshness probe an `Option String` (the newest observation id,
  if any).
-/

/-- JS object property read: first binding for a key (keys are unique). -/
def assocGet {α : Type} {β : Type} [DecidableEq α] (m : List (α × β)) (k : α) : Option β :=
  (m.find? (fun kv => kv.1 = k)).map (fun kv => kv.2)

/-- JS object property write: overwrite in place if the key exists,
otherwise append (insertion order is preserved, as for JS objects with
non-integer string keys). -/
def assocSet {α : Type} {β : Type} [DecidableEq α] (m : List (α × β)) (k : α) (v : β) : List (α × β) :=
  if m.any (fun kv => kv.1 = k) then
    m.map (fun kv => if kv.1 = k then (k, v) else kv)
  else m ++ [(k, v)]

/-- `[...new Set(l)]`: first-occurrence deduplication preserving
insertion order. -/
def setDedup {α : Type} [DecidableEq α] (l : List α) : List α :=
  l.foldl (fun acc a => if a ∈ acc then acc else acc ++ [a]) []

/-- `exist(...args)`: true iff no argument is null/undefined. -/
def exist (args : List (Option ℚ)) : Bool :=
  args.all (fun y => y.isSome)

inductive OBSERVATION_INTERPRETATION : Type
  | NORMAL
  | HIGH
  | CRITICALLY_HIGH
  | OFF_SCALE_HIGH
  | LOW
  | CRITICALLY_LOW
  | OFF_SCALE_LOW
deriving DecidableEq, Repr

/-- `ObsMetaInfo`: range metadata attached to single-test observations.
The source also stores a closure `assessValue` on this record; the
closure is determined by the bounds, so it is modelled by applying
`assessValue` to the record instead of storing a function field. -/
structure ObsMetaInfo : Type where
  hiAbsolute : Option ℚ
  hiCritical : Option ℚ
  hiNormal : Option ℚ
  lowAbsolute : Option ℚ
  lowCritical : Option ℚ
  lowNormal : Option ℚ
  units : Option String
  datatype : Option String
  range : Option String
deriving DecidableEq, Repr

/-- `assessValue(meta)(value)`: ordered severity classification.  Each
branch is `exist(bound) && value > bound` (resp. `<`), taken in source
order. -/
def assessValue (meta : ObsMetaInfo) (value : ℚ) : OBSERVATION_INTERPRETATION :=
  if exist [meta.hiAbsolute] && meta.hiAbsolute.any (fun b => decide (value > b)) then
    OBSERVATION_INTERPRETATION.OFF_SCALE_HIGH
  else if exist [meta.hiCritical] && meta.hiCritical.any (fun b => decide (value > b)) then
    OBSERVATION_INTERPRETATION.CRITICALLY_HIGH
  else if exist [meta.hiNormal] && meta.hiNormal.any (fun b => decide (value > b)) then
    OBSERVATION_INTERPRETATION.HIGH
  else if exist [meta.lowAbsolute] && meta.lowAbsolute.any (fun b => decide (value < b)) then
    OBSERVATION_INTERPRETATION.OFF_SCALE_LOW
  else if exist [meta.lowCritical] && meta.lowCritical.any (fun b => decide (value < b)) then
    OBSERVATION_INTERPRETATION.CRITICALLY_LOW
  else if exist [meta.lowNormal] && meta.lowNormal.any (fun b => decide (value < b)) then
    OBSERVATION_INTERPRETATION.LOW
  else
    OBSERVATION_INTERPRETATION.NORMAL

abbrev ConceptUuid := String

abbrev ObsUuid := String

/-- `conceptClass` of a concept record (`name` is used for the
Test/LabSet filter, `display` becomes the group `type`). -/
structure ConceptClass : Type where
  name : String
  display : String
deriving DecidableEq, Repr

/-- A concept record as returned by the concept endpoint (`datatype` is
the record's `datatype.display`). -/
structure ConceptRecord : Type where
  display : String
  conceptClass : ConceptClass
  hiAbsolute : Option ℚ
  hiCritical : Option ℚ
  hiNormal : Option ℚ
  lowAbsolute : Option ℚ
  lowCritical : Option ℚ
  lowNormal : Option ℚ
  units : Option String
  datatype : Option String
deriving DecidableEq, Repr

/-- The `ObsMetaInfo` record `extractMetaInformation` builds from one
concept record.  `range` is set when both normal bounds exist. -/
def conceptMeta (r : ConceptRecord) : ObsMetaInfo :=
  { hiAbsolute := r.hiAbsolute
    hiCritical := r.hiCritical
    hiNormal := r.hiNormal
    lowAbsolute := r.lowAbsolute
    lowCritical := r.lowCritical
    lowNormal := r.lowNormal
    units := r.units
    datatype := r.datatype
    range :=
      if exist [r.hiNormal, r.lowNormal] then
        match r.lowNormal, r.hiNormal with
        | some lo, some hi => some (toString lo ++ " – " ++ toString hi)
        | _, _ => none
      else none }

/-- `extractMetaInformation`: concept records (keyed by their uuid) to a
map from uuid to `ObsMetaInfo`. -/
def extractMetaInformation (concepts : List (ConceptUuid × ConceptRecord)) :
    List (ConceptUuid × ObsMetaInfo) :=
  concepts.map (fun uc => (uc.1, conceptMeta uc.2))

/-- A raw FHIR observation resource, reduced to the fields the engine
reads.  `code` is `code.coding[0].code`; `hasMember` holds the member
observation uuids (the source splits each `reference` on `/`);
`effectiveDateTime` is modelled by its `Date.parse` value; `value` is
`valueQuantity.value` when a quantity is present. -/
structure ObsRecordRaw : Type where
  id : ObsUuid
  code : ConceptUuid
  effectiveDateTime : Int
  hasMember : Option (List ObsUuid)
  value : Option ℚ
deriving DecidableEq, Repr

/-- A parsed single-test observation (`parseSingleObsData`, no-member
branch). -/
structure SingleObs : Type where
  id : ObsUuid
  conceptClass : ConceptUuid
  effectiveDateTime : Int
  value : Option ℚ
  meta : ObsMetaInfo
  name : String
deriving DecidableEq, Repr

/-- A parsed panel observation (`parseSingleObsData`, member branch,
after member-slot resolution).  `members` has one slot per declared
member; unresolved slots are `none`. -/
structure PanelObs : Type where
  id : ObsUuid
  conceptClass : ConceptUuid
  effectiveDateTime : Int
  value : Option ℚ
  hasMember : List ObsUuid
  members : List (Option SingleObs)
  name : String
deriving DecidableEq, Repr

/-- An entry of a reconstructed group: either a standalone single test
or a panel. -/
inductive PEntry : Type
  | single (s : SingleObs)
  | panel (p : PanelObs)
deriving DecidableEq, Repr

def PEntry.effectiveDateTime : PEntry → Int
  | .single s => s.effectiveDateTime
  | .panel p => p.effectiveDateTime

/-- One value of the reconstructed `sortedObs` map. -/
structure ObsGroup : Type where
  entries : List PEntry
  type : String
  uuid : ConceptUuid
deriving DecidableEq, Repr

/-- `PatientData`: the reconstructed aggregate, a display-name-keyed
object in key insertion order. -/
abbrev PatientData := List (String × ObsGroup)

/-- One cache binding: `[data, creationTime, indicator]`. -/
abbrev CacheRecord := PatientData × Int × String

abbrev Cache := List (String × CacheRecord)

/-- Creation time of a cache binding. -/
def cacheDate (e : String × CacheRecord) : Int := e.2.2.1

/-- `addUserDataToCache`: store/overwrite the binding, then if more than
3 entries remain, sort by creation time descending (the JS comparator
`dateB - dateA`; `Array.prototype.sort` is stable, modelled by the
stable `insertionSort`) and keep the first 3.  `now` models
`Date.now()`. -/
def addUserDataToCache (cache : Cache) (patientUuid : String) (data : PatientData)
    (now : Int) (indicator : String) : Cache :=
  let c := assocSet cache patientUuid (data, now, indicator)
  if 3 < c.length then
    (c.insertionSort (fun a b => cacheDate b ≤ cacheDate a)).take 3
  else c

/-- `getUserDataFromCache`: destructure the binding (absent: all fields
undefined), return the data only when it exists and the freshness probe
result (`getLatestObsUuid`, modelled as the parameter `probe`) is `===`
the stored indicator.  A `none` probe never equals a stored string. -/
def getUserDataFromCache (cache : Cache) (probe : Option String)
    (patientUuid : String) : Option PatientData :=
  match assocGet cache patientUuid with
  | some (data, _, indicator) => if probe = some indicator then some data else none
  | none => none

def PAGE_SIZE : Nat := 100

def CHUNK_PREFETCH_COUNT : Nat := 6

/-- One result envelope of a paged search response. -/
structure FhirEntry (α : Type) : Type where
  resource : α
deriving DecidableEq, Repr

/-- One page of a paged search response. -/
structure FhirPage (α : Type) : Type where
  total : Nat
  entry : List (FhirEntry α)
deriving DecidableEq, Repr

/-- `retrieveFromIterator(requests, length)`: pull `length` successive
values from the page-request generator, whose offset counter stands at
`offset`. -/
def retrieveFromIterator {α : Type} (remote : Nat → FhirPage α) (offset : Nat)
    (length : Nat) : List (FhirPage α) :=
  (List.range length).map (fun i => remote (offset + i))

/-- `Math.ceil(total / PAGE_SIZE)` on naturals. -/
def ceilDiv (a b : Nat) : Nat := (a + b - 1) / b

/-- Result of `loadObsEntries` together with the number of page requests
the generator issued (one `fetch` per value pulled from the iterator). -/
structure FetchResult (α : Type) : Type where
  entries : List α
  requestCount : Nat
deriving DecidableEq, Repr

/-- `loadObsEntries`: prefetch `CHUNK_PREFETCH_COUNT` pages, read
`total` from the first response, top up when `total` exceeds the
prefetch capacity, truncate to `ceil(total / PAGE_SIZE)` pages and
flatten the result envelopes. -/
def loadObsEntries {α : Type} (remote : Nat → FhirPage α) : FetchResult α :=
  let responses := retrieveFromIterator remote 0 CHUNK_PREFETCH_COUNT
  let total :=
    match responses with
    | [] => 0
    | r :: _ => r.total
  let responses2 :=
    if CHUNK_PREFETCH_COUNT * PAGE_SIZE < total then
      responses ++
        retrieveFromIterator remote CHUNK_PREFETCH_COUNT
          (ceilDiv total PAGE_SIZE - CHUNK_PREFETCH_COUNT)
    else responses
  { entries :=
      (responses2.take (ceilDiv total PAGE_SIZE)).flatMap
        (fun res => res.entry.map (fun e => e.resource)),
    requestCount := responses2.length }

/-- `getEntryConceptClassUuid(entry)`: `entry.code.coding[0].code`. -/
def getEntryConceptClassUuid (e : ObsRecordRaw) : ConceptUuid := e.code

/-- `loadPresentConcepts`: fetch the concept record of every distinct
category uuid referenced by the entries, in first-occurrence order (the
`Set` iteration order); `db` is the remote concept endpoint. -/
def loadPresentConcepts (db : ConceptUuid → ConceptRecord)
    (entries : List ObsRecordRaw) : List (ConceptUuid × ConceptRecord) :=
  (setDedup (entries.map getEntryConceptClassUuid)).map (fun u => (u, db u))

/-- The `loadPatientData` filter
`x.conceptClass.name === "Test" || x.conceptClass.name === "LabSet"`. -/
def isTestConcept (r : ConceptRecord) : Bool :=
  r.conceptClass.name = "Test" || r.conceptClass.name = "LabSet"

/-- `testConceptNameMap[u]` (`""` is unreachable: the map is consulted
only for recognized entries, whose uuid is a key). -/
def lookupName (testConcepts : List (ConceptUuid × ConceptRecord)) (u : ConceptUuid) : String :=
  ((assocGet testConcepts u).map (fun r => r.display)).getD ""

/-- The all-absent metadata record (unreachable default of
`lookupMeta`). -/
def emptyMeta : ObsMetaInfo :=
  { hiAbsolute := none, hiCritical := none, hiNormal := none,
    lowAbsolute := none, lowCritical := none, lowNormal := none,
    units := none, datatype := none, range := none }

/-- `metaInfomation[u]` (the default is unreachable: the map is
consulted only for recognized entries). -/
def lookupMeta (metaInfomation : List (ConceptUuid × ObsMetaInfo)) (u : ConceptUuid) : ObsMetaInfo :=
  (assocGet metaInfomation u).getD emptyMeta

/-- A parsed panel before member resolution (its `members` array has
been allocated, slot contents pending). -/
structure PanelPre : Type where
  id : ObsUuid
  conceptClass : ConceptUuid
  effectiveDateTime : Int
  value : Option ℚ
  hasMember : List ObsUuid
  name : String
deriving DecidableEq, Repr

/-- State of the first `entries.forEach` pass of `loadPatientData`:
panels (in push order into `obsByClass`), `singeEntries`, and the
`memberRefs` table.  A member-slot weak reference `[entry.members, i]`
is modelled as `(panel index in push order, i)`: the panel's `members`
array object is identified by the panel occurrence that owns it. -/
structure Recon1 : Type where
  panels : List PanelPre
  singles : List SingleObs
  memberRefs : List (ObsUuid × (Nat × Nat))
deriving Repr

/-- `parseSingleObsData` on an entry that declares members: the panel
branch (the member-slot array is allocated; `name` and `conceptClass`
are attached as for every entry). -/
def toPanelPre (nameMap : ConceptUuid → String) (e : ObsRecordRaw) : PanelPre :=
  { id := e.id, conceptClass := getEntryConceptClassUuid e,
    effectiveDateTime := e.effectiveDateTime, value := e.value,
    hasMember := e.hasMember.getD [], name := nameMap (getEntryConceptClassUuid e) }

/-- `parseSingleObsData` on an entry without members: the single-test
branch (range metadata is attached directly). -/
def toSingleObs (nameMap : ConceptUuid → String) (metaMap : ConceptUuid → ObsMetaInfo)
    (e : ObsRecordRaw) : SingleObs :=
  { id := e.id, conceptClass := getEntryConceptClassUuid e,
    effectiveDateTime := e.effectiveDateTime, value := e.value,
    meta := metaMap (getEntryConceptClassUuid e),
    name := nameMap (getEntryConceptClassUuid e) }

/-- `parseSingleObsData` followed by the panel/single dispatch of the
first `entries.forEach` pass, for one (recognized) entry.  A panel
registers, for each declared member reference, a back-pointer to its
members array slot (later registrations of the same member uuid
overwrite earlier ones); a single entry gets its range metadata. -/
def parseSingleObsStep (nameMap : ConceptUuid → String)
    (metaMap : ConceptUuid → ObsMetaInfo) (st : Recon1) (e : ObsRecordRaw) : Recon1 :=
  match e.hasMember with
  | some refs =>
    { st with
      panels := st.panels ++ [toPanelPre nameMap e],
      memberRefs := refs.enum.foldl
        (fun m p => assocSet m p.2 (st.panels.length, p.1)) st.memberRefs }
  | none =>
    { st with
      singles := st.singles ++ [toSingleObs nameMap metaMap e] }

/-- State of the `singeEntries.forEach` pass: member placements
(`memRef[0][memRef[1]] = entry`, keyed by the slot they fill, later
placements into the same slot overwriting earlier ones) and the
standalone singles pushed into their category group. -/
structure Recon2 : Type where
  placements : List ((Nat × Nat) × SingleObs)
  standalone : List SingleObs
deriving Repr

/-- One step of the `singeEntries.forEach` pass. -/
def placeSingleStep (memberRefs : List (ObsUuid × (Nat × Nat)))
    (st : Recon2) (s : SingleObs) : Recon2 :=
  match assocGet memberRefs s.id with
  | some loc => { st with placements := assocSet st.placements loc s }
  | none => { st with standalone := st.standalone ++ [s] }

/-- Read back panel `pidx`'s members array: one slot per declared
member, `none` where no single entry was placed. -/
def resolvePanel (placements : List ((Nat × Nat) × SingleObs)) (pidx : Nat)
    (p : PanelPre) : PanelObs :=
  { id := p.id, conceptClass := p.conceptClass,
    effectiveDateTime := p.effectiveDateTime, value := p.value,
    hasMember := p.hasMember,
    members := (List.range p.hasMember.length).map (fun i => assocGet placements (pidx, i)),
    name := p.name }

/-- `testConcepts`: the fetched concepts whose class is Test or
LabSet. -/
def testConceptsOf (db : ConceptUuid → ConceptRecord) (entries : List ObsRecordRaw) :
    List (ConceptUuid × ConceptRecord) :=
  (loadPresentConcepts db entries).filter (fun uc => isTestConcept uc.2)

/-- The entries that survive the data-quality filter
`testConceptUuids.includes(getEntryConceptClassUuid(entry))`. -/
def recognizedEntries (db : ConceptUuid → ConceptRecord) (entries : List ObsRecordRaw) :
    List ObsRecordRaw :=
  entries.filter (fun e =>
    decide (getEntryConceptClassUuid e ∈ (testConceptsOf db entries).map (fun uc => uc.1)))

/-- State after the first `entries.forEach` pass. -/
def recon1 (db : ConceptUuid → ConceptRecord) (entries : List ObsRecordRaw) : Recon1 :=
  (recognizedEntries db entries).foldl
    (parseSingleObsStep (lookupName (testConceptsOf db entries))
      (lookupMeta (extractMetaInformation (testConceptsOf db entries))))
    ⟨[], [], []⟩

/-- State after the `singeEntries.forEach` pass. -/
def recon2 (db : ConceptUuid → ConceptRecord) (entries : List ObsRecordRaw) : Recon2 :=
  (recon1 db entries).singles.foldl (placeSingleStep (recon1 db entries).memberRefs) ⟨[], []⟩

/-- All panels with their member arrays read back. -/
def resolvedPanelsOf (db : ConceptUuid → ConceptRecord) (entries : List ObsRecordRaw) :
    List PanelObs :=
  (recon1 db entries).panels.enum.map
    (fun ip => resolvePanel (recon2 db entries).placements ip.1 ip.2)

/-- `obsByClass[u]` after both passes: panels of that class in push
order, then standalone singles of that class in push order. -/
def groupFor (db : ConceptUuid → ConceptRecord) (entries : List ObsRecordRaw)
    (u : ConceptUuid) : List PEntry :=
  ((resolvedPanelsOf db entries).filter (fun p => p.conceptClass = u)).map PEntry.panel ++
    (((recon2 db entries).standalone.filter (fun s => s.conceptClass = u)).map PEntry.single)

/-- The pure reconstruction core of `loadPatientData` (everything
between the fetches and the cache store), producing `sortedObs`:
non-empty groups, keyed by concept display name, entries sorted by
effective timestamp descending. -/
def reconstruct (db : ConceptUuid → ConceptRecord)
    (entries : List ObsRecordRaw) : PatientData :=
  ((((testConceptsOf db entries).map (fun uc => uc.1)).map
      (fun u => (u, groupFor db entries u))).filterMap
    (fun ug =>
      if ug.2.length ≠ 0 then
        match assocGet (testConceptsOf db entries) ug.1 with
        | some r =>
          some (r.display,
            { entries := ug.2.insertionSort
                (fun a b => b.effectiveDateTime ≤ a.effectiveDateTime),
              type := r.conceptClass.display, uuid := ug.1 })
        | none => none
      else none))

/-- `Object.fromEntries` lookup on the aggregate: with duplicate display
names the later binding wins. -/
def aggGet (d : PatientData) (k : String) : Option ObsGroup :=
  (d.reverse.find? (fun kv => kv.1 = k)).map (fun kv => kv.2)

/-- The fetch-miss path of `loadPatientData` after `loadObsEntries`
returned `entries`: reconstruct, then read `entries[0].id` (the
freshness indicator).  Reading `.id` of `entries[0]` throws a
`TypeError` when the list is empty, modelled as `none`. -/
def loadPatientDataFresh (db : ConceptUuid → ConceptRecord)
    (entries : List ObsRecordRaw) : Option (PatientData × ObsUuid) :=
  let sortedObs := reconstruct db entries
  match entries.head? with
  | none => none
  | some e => some (sortedObs, e.id)

/-- `loadPatientData`: cache probe first; on a miss run the fresh path
and store the result.  A `none` fresh result models the thrown
`TypeError`: it propagates and the cache is left untouched. -/
def loadPatientData (cache : Cache) (probe : Option String)
    (db : ConceptUuid → ConceptRecord) (entries : List ObsRecordRaw)
    (patientUuid : String) (now : Int) : Option (PatientData × Cache) :=
  match getUserDataFromCache cache probe patientUuid with
  | some d => some (d, cache)
  | none =>
    match loadPatientDataFresh db entries with
    | none => none
    | some (d, ind) => some (d, addUserDataToCache cache patientUuid d now ind)

/-- `row[i] = v` on a JS array: extend with holes (here `none`) so slot
`i` exists, then fill it. -/
def setSparse {α : Type} (row : List (Option α)) (i : Nat) (v : α) : List (Option α) :=
  (row ++ List.replicate (i + 1 - row.length) none).set i (some v)

/-- The `members.forEach` body of `parseEntries` for the entry at
`idx`: a hole is skipped; an actual member is written at slot `idx` of
its name's row (`rows[name] || (rows[name] = [])`, then
`row[index] = member`). -/
def pivotStep (idx : Nat) (rows : List (String × List (Option SingleObs)))
    (m : Option SingleObs) : List (String × List (Option SingleObs)) :=
  match m with
  | none => rows
  | some member =>
    assocSet rows member.name (setSparse ((assocGet rows member.name).getD []) idx member)

/-- `parseEntries`: row-major pivot of the selected panel's entries.
`entries.forEach((entry, index) => entry.members.forEach(member => ...))`;
holes of the `members` array (`none` slots) are skipped by `forEach`.
The final `rows[key] = [...value]` copy materializes holes as
`undefined` without changing lengths, which the model already does. -/
def parseEntries (entries : List PanelObs) : List (String × List (Option SingleObs)) :=
  entries.enum.foldl (fun rows ie => ie.2.members.foldl (pivotStep ie.1) rows) []

/-- The remote used to refute the claimed request count: a patient with
exactly 100 laboratory observations, all on the first page. -/
def c1Remote : Nat → FhirPage Nat := fun i =>
  if i = 0 then { total := 100, entry := (List.range 100).map (fun j => FhirEntry.mk j) }
  else { total := 100, entry := [] }

/-- A well-formed remote with 150 observations split over two pages. -/
def c1WitnessRemote : Nat → FhirPage Nat := fun i =>
  { total := 150,
    entry := (((List.range 150).drop (i * PAGE_SIZE)).take PAGE_SIZE).map (fun j => FhirEntry.mk j) }

/-- The ordered bound checks of the range assessor: condition and
resulting category, in evaluation order.  An absent bound yields a
false condition (`Option.any` of `none`), i.e. is skipped, never
satisfied. -/
def orderedBoundChecks (meta : ObsMetaInfo) (value : ℚ) :
    List (Bool × OBSERVATION_INTERPRETATION) :=
  [ (meta.hiAbsolute.any (fun b => decide (value > b)), OBSERVATION_INTERPRETATION.OFF_SCALE_HIGH),
    (meta.hiCritical.any (fun b => decide (value > b)), OBSERVATION_INTERPRETATION.CRITICALLY_HIGH),
    (meta.hiNormal.any (fun b => decide (value > b)), OBSERVATION_INTERPRETATION.HIGH),
    (meta.lowAbsolute.any (fun b => decide (value < b)), OBSERVATION_INTERPRETATION.OFF_SCALE_LOW),
    (meta.lowCritical.any (fun b => decide (value < b)), OBSERVATION_INTERPRETATION.CRITICALLY_LOW),
    (meta.lowNormal.any (fun b => decide (value < b)), OBSERVATION_INTERPRETATION.LOW) ]

/-- The cache after storing entries for P1, P2, P3 at creation times
1, 2, 3. -/
def cacheP3 : Cache :=
  addUserDataToCache (addUserDataToCache (addUserDataToCache [] "P1" [] 1 "i1") "P2" [] 2 "i2")
    "P3" [] 3 "i3"

/-- An arbitrary concept endpoint for the C9 witness. -/
def dbTrivial : ConceptUuid → ConceptRecord := fun _ =>
  { display := "X", conceptClass := { name := "Test", display := "Test" },
    hiAbsolute := none, hiCritical := none, hiNormal := none,
    lowAbsolute := none, lowCritical := none, lowNormal := none,
    units := none, datatype := none }

def entries7 : List ObsRecordRaw :=
  [ { id := "a", code := "c", effectiveDateTime := 5, hasMember := none, value := none },
    { id := "b", code := "c", effectiveDateTime := 5, hasMember := none, value := none } ]

def entries7w : List ObsRecordRaw :=
  [ { id := "a", code := "c", effectiveDateTime := 5, hasMember := none, value := none } ]

def single7w : SingleObs :=
  { id := "a", conceptClass := "c", effectiveDateTime := 5, value := none,
    meta := emptyMeta, name := "X" }

def group7w : ObsGroup :=
  { entries := [PEntry.single single7w], type := "Test", uuid := "c" }

/-- The raw panel entries among a list (the entries pushed into
`obsByClass` during the first pass). -/
def panelsRaw (l : List ObsRecordRaw) : List ObsRecordRaw :=
  l.filter (fun e => e.hasMember.isSome)

/-- The member-reference registrations the first pass performs, in
order: one `(member uuid, (panel index, slot))` triple per declared
member, with panel indices counted from `off`. -/
def panelRegs : Nat → List ObsRecordRaw → List (ObsUuid × (Nat × Nat))
  | _, [] => []
  | off, e :: l =>
    match e.hasMember with
    | some refs => refs.enum.map (fun p => (p.2, (off, p.1))) ++ panelRegs (off + 1) l
    | none => panelRegs off l

def db6 : ConceptUuid → ConceptRecord := fun _ =>
  { display := "Panel", conceptClass := { name := "LabSet", display := "LabSet" },
    hiAbsolute := none, hiCritical := none, hiNormal := none,
    lowAbsolute := none, lowCritical := none, lowNormal := none,
    units := none, datatype := none }

def entries6 : List ObsRecordRaw :=
  [ { id := "a", code := "pc", effectiveDateTime := 5, hasMember := some ["m"], value := none } ]

def entries10 : List ObsRecordRaw :=
  [ { id := "a", code := "pc", effectiveDateTime := 5, hasMember := some ["b"], value := none },
    { id := "b", code := "pc", effectiveDateTime := 4, hasMember := some [], value := none } ]

def panel6w : PanelObs :=
  { id := "a", conceptClass := "pc", effectiveDateTime := 5, value := none,
    hasMember := ["m"], members := [none], name := "Panel" }

def group6w : ObsGroup :=
  { entries := [PEntry.panel panel6w], type := "LabSet", uuid := "pc" }

def panel10w : PanelObs :=
  { id := "a", conceptClass := "pc", effectiveDateTime := 5, value := none,
    hasMember := ["b"], members := [none], name := "Panel" }

def panel10inner : PanelObs :=
  { id := "b", conceptClass := "pc", effectiveDateTime := 4, value := none,
    hasMember := [], members := [], name := "Panel" }

def group10w : ObsGroup :=
  { entries := [PEntry.panel panel10w, PEntry.panel panel10inner],
    type := "LabSet", uuid := "pc" }

def raw10q : ObsRecordRaw :=
  { id := "b", code := "pc", effectiveDateTime := 4, hasMember := some [], value := none }

/-- The members of a panel entry carrying a given display name, holes
skipped, in members-array order. -/
def membersNamed (nm : String) (p : PanelObs) : List SingleObs :=
  (p.members.filterMap id).filter (fun m => m.name = nm)

/-- The member that a pivot row slot ends up holding: the last member
of the entry with that name (later assignments at the same index
overwrite earlier ones). -/
def lastMemberNamed (nm : String) (p : PanelObs) : Option SingleObs :=
  (membersNamed nm p).getLast?

/-- Drop trailing `none`s: a JS array's length reaches only the last
assigned slot. -/
def rtrimNone {α : Type} (l : List (Option α)) : List (Option α) :=
  (l.reverse.dropWhile (fun o => o.isNone)).reverse

def single8A : SingleObs :=
  { id := "m", conceptClass := "sc", effectiveDateTime := 5, value := none,
    meta := emptyMeta, name := "A" }

def entries8 : List PanelObs :=
  [ { id := "a", conceptClass := "pc", effectiveDateTime := 5, value := none,
      hasMember := ["m"], members := [some single8A], name := "P" },
    { id := "b", conceptClass := "pc", effectiveDateTime := 4, value := none,
      hasMember := [], members := [], name := "P" } ]

/-- A concept class recognized as laboratory data, as a predicate on
the concept uuid (the record the concept endpoint returns for it). -/
def isTestCode (db : ConceptUuid → ConceptRecord) (c : ConceptUuid) : Bool :=
  isTestConcept (db c)

/-- The data-quality filter of `loadPatientData` as a per-entry
predicate. -/
def recogB (db : ConceptUuid → ConceptRecord) (e : ObsRecordRaw) : Bool :=
  isTestCode db (getEntryConceptClassUuid e)

/-- Canonical display-name map (what `testConceptNameMap` yields for a
recognized code). -/
def nameC (db : ConceptUuid → ConceptRecord) (u : ConceptUuid) : String := (db u).display

/-- Canonical metadata map (what `metaInfomation` yields for a
recognized code). -/
def metaC (db : ConceptUuid → ConceptRecord) (u : ConceptUuid) : ObsMetaInfo :=
  conceptMeta (db u)

/-- Canonical parsed single (list-order-free). -/
def toSingleObsC (db : ConceptUuid → ConceptRecord) (e : ObsRecordRaw) : SingleObs :=
  toSingleObs (nameC db) (metaC db) e

/-- Canonical pre-resolution panel (list-order-free). -/
def toPanelPreC (db : ConceptUuid → ConceptRecord) (e : ObsRecordRaw) : PanelPre :=
  toPanelPre (nameC db) e

/-- Canonical parsed singles list. -/
def singlesC (db : ConceptUuid → ConceptRecord) (l : List ObsRecordRaw) : List SingleObs :=
  ((l.filter (recogB db)).filter (fun e => e.hasMember.isNone)).map (toSingleObsC db)

/-- The member registrations performed on input `l`. -/
def regsOf (db : ConceptUuid → ConceptRecord) (l : List ObsRecordRaw) :
    List (ObsUuid × (Nat × Nat)) :=
  panelRegs 0 (l.filter (recogB db))

/-- The placement stream: one `(slot, single)` pair per single entry
whose id is registered as a member reference. -/
def streamOf (db : ConceptUuid → ConceptRecord) (l : List ObsRecordRaw) :
    List ((Nat × Nat) × SingleObs) :=
  (recon1 db l).singles.filterMap
    (fun s => (assocGet (recon1 db l).memberRefs s.id).map (fun loc => (loc, s)))

/-- Canonical resolved panel: slot `i` holds the unique single entry
whose id equals the declared reference, if any. -/
def resolvePanelC (db : ConceptUuid → ConceptRecord) (l : List ObsRecordRaw)
    (pre : PanelPre) : PanelObs :=
  { id := pre.id, conceptClass := pre.conceptClass,
    effectiveDateTime := pre.effectiveDateTime, value := pre.value,
    hasMember := pre.hasMember,
    members := pre.hasMember.map (fun r => (singlesC db l).find? (fun s => s.id = r)),
    name := pre.name }

/-- Whether a member reference to `r` was registered on input `l`. -/
def declaredB (db : ConceptUuid → ConceptRecord) (l : List ObsRecordRaw) (r : ObsUuid) : Bool :=
  (regsOf db l).any (fun kv => kv.1 = r)

/-- The concept endpoint for the C2 counterexample. -/
def db2cex : ConceptUuid → ConceptRecord := fun u =>
  if u = "pc" then
    { display := "Panel", conceptClass := { name := "LabSet", display := "LabSet" },
      hiAbsolute := none, hiCritical := none, hiNormal := none,
      lowAbsolute := none, lowCritical := none, lowNormal := none,
      units := none, datatype := none }
  else
    { display := "Single", conceptClass := { name := "Test", display := "Test" },
      hiAbsolute := none, hiCritical := none, hiNormal := none,
      lowAbsolute := none, lowCritical := none, lowNormal := none,
      units := none, datatype := none }

/-- Two panels both declaring member "m", and the single "m". -/
def entries2cex : List ObsRecordRaw :=
  [ { id := "A", code := "pc", effectiveDateTime := 10, hasMember := some ["m"], value := none },
    { id := "B", code := "pc", effectiveDateTime := 9, hasMember := some ["m"], value := none },
    { id := "m", code := "sc", effectiveDateTime := 8, hasMember := none, value := none } ]

/-- The same entries with the two panels swapped. -/
def entries2cexPerm : List ObsRecordRaw :=
  [ { id := "B", code := "pc", effectiveDateTime := 9, hasMember := some ["m"], value := none },
    { id := "A", code := "pc", effectiveDateTime := 10, hasMember := some ["m"], value := none },
    { id := "m", code := "sc", effectiveDateTime := 8, hasMember := none, value := none } ]

/-- The spec's end-to-end example: a CBC panel with one Hgb member. -/
def dbEx : ConceptUuid → ConceptRecord := fun u =>
  if u = "panelCat" then
    { display := "CBC", conceptClass := { name := "LabSet", display := "LabSet" },
      hiAbsolute := none, hiCritical := none, hiNormal := none,
      lowAbsolute := none, lowCritical := none, lowNormal := none,
      units := none, datatype := none }
  else
    { display := "Hgb", conceptClass := { name := "Test", display := "Test" },
      hiAbsolute := none, hiCritical := none, hiNormal := none,
      lowAbsolute := none, lowCritical := none, lowNormal := none,
      units := none, datatype := none }

def entriesEx : List ObsRecordRaw :=
  [ { id := "a", code := "panelCat", effectiveDateTime := 10, hasMember := some ["b"],
      value := none },
    { id := "b", code := "singleCat", effectiveDateTime := 10, hasMember := none,
      value := some 7 } ]

def entriesExPerm : List ObsRecordRaw :=
  [ { id := "b", code := "singleCat", effectiveDateTime := 10, hasMember := none,
      value := some 7 },
    { id := "a", code := "panelCat", effectiveDateTime := 10, hasMember := some ["b"],
      value := none } ]

/-! ## Lemmas and theorems -/

/-- Flattening the `k` successive `n`-sized chunks of `xs` recovers the
first `k * n` elements of `xs`. -/
theorem range_flatMap_chunks {α : Type} (n : Nat) :
    ∀ (k : Nat) (xs : List α),
      (List.range k).flatMap (fun i => (xs.drop (i * n)).take n) = xs.take (k * n) := by
  intro k
  induction k with
  | zero => intro xs; simp
  | succ k ih =>
    intro xs
    rw [List.range_succ, List.flatMap_append, ih, List.flatMap_cons]
    simp only [List.flatMap_nil, List.append_nil]
    rw [Nat.succ_mul, List.take_add]

/-- In a list strictly descending under `f`, membership in the first
`k` elements is equivalent to membership plus fewer than `k` elements
being strictly greater. -/
theorem mem_take_sorted_strict {α : Type} (f : α → Int) :
    ∀ (s : List α) (k : Nat) (e : α),
      List.Pairwise (fun a b => f b < f a) s →
      (e ∈ s.take k ↔ e ∈ s ∧ (s.filter (fun x => decide (f e < f x))).length < k) := by
  intro s
  induction s with
  | nil => intro k e _; simp
  | cons a t ih =>
    intro k e hp
    obtain ⟨ha, hpt⟩ := List.pairwise_cons.mp hp
    cases k with
    | zero => simp
    | succ k =>
      rw [List.take_succ_cons]
      by_cases hea : e = a
      · subst hea
        have hfilt : t.filter (fun x => decide (f e < f x)) = [] := by
          rw [List.filter_eq_nil_iff]
          intro x hx
          simp only [decide_eq_true_eq]
          exact not_lt.mpr (le_of_lt (ha x hx))
        rw [List.filter_cons]
        rw [if_neg (by simp)]
        rw [hfilt]
        simp
      · have hmemiff : e ∈ a :: t.take k ↔ e ∈ t.take k := by
          simp [hea]
        rw [hmemiff, ih k e hpt]
        constructor
        · rintro ⟨het, hlen⟩
          have hea2 : f e < f a := ha e het
          refine ⟨List.mem_cons_of_mem a het, ?_⟩
          rw [List.filter_cons, if_pos (decide_eq_true hea2)]
          simp only [List.length_cons]
          omega
        · rintro ⟨hmem, hlen⟩
          have het : e ∈ t := by
            cases List.mem_cons.mp hmem with
            | inl h => exact absurd h hea
            | inr h => exact h
          have hea2 : f e < f a := ha e het
          refine ⟨het, ?_⟩
          rw [List.filter_cons, if_pos (decide_eq_true hea2)] at hlen
          simp only [List.length_cons] at hlen
          omega

/-- C1 counterexample: for a total of 100 (≤ 600) the fetcher issues 6
page requests (the full prefetch window), not `ceil(100/100) = 1`, even
though the flattened result is correct. -/
theorem C1_pageFetcher_counterexample :
    (loadObsEntries c1Remote).entries = List.range 100 ∧
    (loadObsEntries c1Remote).requestCount ≠ ceilDiv 100 PAGE_SIZE := by
  constructor
  · rfl
  · decide

/-- C1 (amended): for every patient whose remote total is at most
`CHUNK_PREFETCH_COUNT * PAGE_SIZE = 600` and whose pages are the
`PAGE_SIZE`-sized chunks of the `total`-element entry list (pages past
`ceil(total/PAGE_SIZE)` arbitrary — the truncation guard discards
them), `loadObsEntries` issues exactly `CHUNK_PREFETCH_COUNT = 6` page
requests and returns exactly the `total` raw entries in original
(page, within-page) order. -/
theorem C1_pageFetcher_amended {α : Type} (remote : Nat → FhirPage α) (all : List α)
    (total : Nat)
    (htot : (remote 0).total = total)
    (hle : total ≤ CHUNK_PREFETCH_COUNT * PAGE_SIZE)
    (hlen : all.length = total)
    (hpages : ∀ i, i < ceilDiv total PAGE_SIZE →
      (remote i).entry = ((all.drop (i * PAGE_SIZE)).take PAGE_SIZE).map (fun a => FhirEntry.mk a)) :
    (loadObsEntries remote).requestCount = CHUNK_PREFETCH_COUNT ∧
    (loadObsEntries remote).entries = all := by
  have hresp : retrieveFromIterator remote 0 CHUNK_PREFETCH_COUNT =
      (List.range CHUNK_PREFETCH_COUNT).map (fun i => remote i) := by
    simp [retrieveFromIterator]
  have htotmatch : (match retrieveFromIterator remote 0 CHUNK_PREFETCH_COUNT with
        | [] => 0
        | r :: _ => r.total) = total := by
    rw [hresp]
    simp only [List.range, List.range.loop, List.map]
    exact htot
  have hk6 : ceilDiv total PAGE_SIZE ≤ CHUNK_PREFETCH_COUNT := by
    simp only [ceilDiv, PAGE_SIZE, CHUNK_PREFETCH_COUNT] at *
    omega
  have hnottop : ¬ (CHUNK_PREFETCH_COUNT * PAGE_SIZE < total) := by omega
  constructor
  · simp only [loadObsEntries]
    rw [htotmatch, if_neg hnottop, hresp]
    simp
  · simp only [loadObsEntries]
    rw [htotmatch, if_neg hnottop, hresp]
    rw [← List.map_take, List.take_range, Nat.min_eq_left hk6]
    rw [List.flatMap_map]
    have heach : ∀ i ∈ List.range (ceilDiv total PAGE_SIZE),
        (remote i).entry.map (fun e => e.resource) = (all.drop (i * PAGE_SIZE)).take PAGE_SIZE := by
      intro i hi
      rw [List.mem_range] at hi
      rw [hpages i hi, List.map_map]
      have hcomp : ((fun e : FhirEntry α => e.resource) ∘ fun a => FhirEntry.mk a) = id := rfl
      rw [hcomp, List.map_id]
    rw [List.flatMap_congr heach]
    rw [range_flatMap_chunks]
    apply List.take_of_length_le
    rw [hlen]
    simp only [ceilDiv, PAGE_SIZE]
    omega

/-- Witness for C1 (amended) at a patient with 150 observations. -/
theorem C1_pageFetcher_witness :
    (loadObsEntries c1WitnessRemote).requestCount = CHUNK_PREFETCH_COUNT ∧
    (loadObsEntries c1WitnessRemote).entries = List.range 150 :=
  C1_pageFetcher_amended c1WitnessRemote (List.range 150) 150 rfl (by decide) (by simp)
    (fun i hi => rfl)

theorem exist_single_and {o : Option ℚ} {p : ℚ → Bool} :
    (exist [o] && o.any p) = o.any p := by
  cases o <;> simp [exist]

/-- C3: `assessValue` returns the category of the first matching bound
in the fixed order hiAbsolute, hiCritical, hiNormal, lowAbsolute,
lowCritical, lowNormal (strict comparisons, absent bounds skipped,
default NORMAL); a value exactly equal to a bound is never classified
into that bound's category; and with hiAbsolute=100, hiCritical=90,
hiNormal=80 the value 95 is CRITICALLY_HIGH. -/
theorem C3_assessValue_ordered_strict :
    ∀ (meta : ObsMetaInfo) (value : ℚ),
      (assessValue meta value =
        (((orderedBoundChecks meta value).find? (fun c => c.1)).map (fun c => c.2)).getD
          OBSERVATION_INTERPRETATION.NORMAL)
      ∧ (meta.hiAbsolute = some value → assessValue meta value ≠ OBSERVATION_INTERPRETATION.OFF_SCALE_HIGH)
      ∧ (meta.hiCritical = some value → assessValue meta value ≠ OBSERVATION_INTERPRETATION.CRITICALLY_HIGH)
      ∧ (meta.hiNormal = some value → assessValue meta value ≠ OBSERVATION_INTERPRETATION.HIGH)
      ∧ (meta.lowAbsolute = some value → assessValue meta value ≠ OBSERVATION_INTERPRETATION.OFF_SCALE_LOW)
      ∧ (meta.lowCritical = some value → assessValue meta value ≠ OBSERVATION_INTERPRETATION.CRITICALLY_LOW)
      ∧ (meta.lowNormal = some value → assessValue meta value ≠ OBSERVATION_INTERPRETATION.LOW)
      ∧ assessValue { emptyMeta with hiAbsolute := some 100, hiCritical := some 90, hiNormal := some 80 } 95
          = OBSERVATION_INTERPRETATION.CRITICALLY_HIGH := by
  intro meta value
  refine ⟨?_, ?_, ?_, ?_, ?_, ?_, ?_, by decide⟩
  · simp only [assessValue, orderedBoundChecks, exist_single_and, List.find?]
    split_ifs <;> simp_all
  all_goals intro h
  all_goals simp only [assessValue, exist_single_and, h]
  all_goals split_ifs <;> simp_all

/-- Witness for C3 at the concrete boundary input hiCritical=90,
value=90: not classified CRITICALLY_HIGH. -/
theorem C3_assessValue_witness :
    assessValue { emptyMeta with hiCritical := some 90 } 90 ≠
      OBSERVATION_INTERPRETATION.CRITICALLY_HIGH :=
  (C3_assessValue_ordered_strict { emptyMeta with hiCritical := some 90 } 90).2.2.1 rfl

/-- C4: after storing entries for four distinct patients at strictly
increasing creation times, exactly P2, P3, P4 remain (P1 evicted); and
in general, whenever a put leaves more than 3 entries (with pairwise
distinct creation times), an entry survives exactly when fewer than 3
entries have a strictly greater creation time — i.e. all but the 3 most
recently created are evicted. -/
theorem C4_cache_eviction :
    ((addUserDataToCache cacheP3 "P4" [] 4 "i4").map (fun e => e.1) = ["P4", "P3", "P2"])
    ∧ ∀ (cache : Cache) (pid : String) (data : PatientData) (now : Int) (ind : String),
        List.Pairwise (fun a b => cacheDate a ≠ cacheDate b) (assocSet cache pid (data, now, ind)) →
        3 < (assocSet cache pid (data, now, ind)).length →
        ∀ e, e ∈ addUserDataToCache cache pid data now ind ↔
          e ∈ assocSet cache pid (data, now, ind) ∧
          ((assocSet cache pid (data, now, ind)).filter
            (fun x => decide (cacheDate e < cacheDate x))).length < 3 := by
  constructor
  · decide
  · intro cache pid data now ind hdist hlen e
    set mid := assocSet cache pid (data, now, ind) with hmid
    have hstep : addUserDataToCache cache pid data now ind =
        (mid.insertionSort (fun a b => cacheDate b ≤ cacheDate a)).take 3 := by
      simp only [addUserDataToCache, ← hmid, if_pos hlen]
    rw [hstep]
    set s := mid.insertionSort (fun a b => cacheDate b ≤ cacheDate a) with hs
    have hperm : s.Perm mid := List.perm_insertionSort _ mid
    haveI : IsTotal (String × CacheRecord) (fun a b => cacheDate b ≤ cacheDate a) :=
      ⟨fun a b => le_total (cacheDate b) (cacheDate a)⟩
    haveI : IsTrans (String × CacheRecord) (fun a b => cacheDate b ≤ cacheDate a) :=
      ⟨fun a b c hab hbc => le_trans hbc hab⟩
    have hsorted : List.Pairwise (fun a b => cacheDate b ≤ cacheDate a) s :=
      List.sorted_insertionSort _ mid
    have hdists : List.Pairwise (fun a b => cacheDate a ≠ cacheDate b) s :=
      (List.Perm.pairwise_iff (fun h => h.symm) hperm).mpr hdist
    have hstrict : List.Pairwise (fun a b => cacheDate b < cacheDate a) s := by
      apply (hsorted.and hdists).imp
      intro a b hab
      omega
    rw [mem_take_sorted_strict cacheDate s 3 e hstrict]
    rw [hperm.mem_iff]
    have hfl : (s.filter (fun x => decide (cacheDate e < cacheDate x))).length =
        (mid.filter (fun x => decide (cacheDate e < cacheDate x))).length :=
      (List.Perm.filter _ hperm).length_eq
    rw [hfl]

/-- Witness for C4's general eviction law at the concrete P1..P4
scenario. -/
theorem C4_cache_eviction_witness :
    ("P1", (([] : PatientData), (1 : Int), "i1")) ∈
        addUserDataToCache cacheP3 "P4" [] 4 "i4" ↔
      ("P1", (([] : PatientData), (1 : Int), "i1")) ∈ assocSet cacheP3 "P4" ([], 4, "i4") ∧
      ((assocSet cacheP3 "P4" (([] : PatientData), (4 : Int), "i4")).filter
        (fun x => decide (cacheDate ("P1", (([] : PatientData), (1 : Int), "i1")) < cacheDate x))).length < 3 :=
  C4_cache_eviction.2 cacheP3 "P4" [] 4 "i4" (by decide) (by decide) _

/-- C5: `getUserDataFromCache` returns the stored aggregate exactly
when an entry exists for the patient and the freshness probe result
equals the stored indicator; in every other case (no entry, probe
disagreement, probe absent) it returns absent. -/
theorem C5_cache_get_iff :
    ∀ (cache : Cache) (probe : Option String) (patientUuid : String) (d : PatientData),
      getUserDataFromCache cache probe patientUuid = some d ↔
        ∃ t ind, assocGet cache patientUuid = some (d, t, ind) ∧ probe = some ind := by
  intro cache probe patientUuid d
  unfold getUserDataFromCache
  cases h : assocGet cache patientUuid with
  | none => simp
  | some r =>
    obtain ⟨data, t, ind⟩ := r
    by_cases hp : probe = some ind <;> simp [hp]

/-- Witness for C5: agreement on "obs-123" yields the stored aggregate;
disagreement ("obs-456") yields absent. -/
theorem C5_cache_get_witness :
    getUserDataFromCache [("p1", ([], 0, "obs-123"))] (some "obs-123") "p1" = some [] ∧
    getUserDataFromCache [("p1", ([], 0, "obs-123"))] (some "obs-456") "p1" = none := by
  constructor
  · exact (C5_cache_get_iff [("p1", ([], 0, "obs-123"))] (some "obs-123") "p1" []).mpr
      ⟨0, "obs-123", rfl, rfl⟩
  · cases h : getUserDataFromCache [("p1", ([], 0, "obs-123"))] (some "obs-456") "p1" with
    | none => rfl
    | some d =>
      obtain ⟨t, ind, hget, hp⟩ :=
        (C5_cache_get_iff [("p1", ([], 0, "obs-123"))] (some "obs-456") "p1" d).mp h
      have hind : ind = "obs-123" := by
        have : some (d, t, ind) = some (([] : PatientData), (0 : Int), "obs-123") := by
          rw [← hget]; rfl
        simp at this
        exact this.2.2
      rw [hind] at hp
      simp at hp

/-- C9: when the fetch yields an empty raw entry list, the fresh path
faults reading `entries[0].id` (returns `none`, never an empty
aggregate), so on a cache miss `loadPatientData` fails and no cache
entry is stored (the exception propagates before `addUserDataToCache`
runs). -/
theorem C9_empty_fetch_faults :
    ∀ (db : ConceptUuid → ConceptRecord) (cache : Cache) (patientUuid : String)
      (now : Int) (probe : Option String),
      loadPatientDataFresh db [] = none ∧
      (getUserDataFromCache cache probe patientUuid = none →
        loadPatientData cache probe db [] patientUuid now = none) := by
  intro db cache patientUuid now probe
  constructor
  · rfl
  · intro h
    simp [loadPatientData, h, loadPatientDataFresh]

/-- Witness for C9 at an empty cache and empty fetch. -/
theorem C9_empty_fetch_witness :
    loadPatientData [] none dbTrivial [] "p" 0 = none :=
  (C9_empty_fetch_faults dbTrivial [] "p" 0 none).2 rfl

theorem C7_groups_sorted_counterexample :
    ∃ kv ∈ reconstruct dbTrivial entries7,
      ¬ List.Pairwise (fun a b : PEntry => b.effectiveDateTime < a.effectiveDateTime) kv.2.entries := by
  decide

theorem C7_groups_sorted_nonempty :
    ∀ (db : ConceptUuid → ConceptRecord) (entries : List ObsRecordRaw)
      (kv : String × ObsGroup), kv ∈ reconstruct db entries →
      kv.2.entries ≠ [] ∧
      List.Pairwise (fun a b : PEntry => b.effectiveDateTime ≤ a.effectiveDateTime) kv.2.entries := by
  intro db entries kv hkv
  simp only [reconstruct] at hkv
  rw [List.mem_filterMap] at hkv
  obtain ⟨ug, hmem, heq⟩ := hkv
  split at heq
  · rename_i hlen0
    split at heq
    · rename_i r hget
      cases heq
      haveI : IsTotal PEntry (fun a b => b.effectiveDateTime ≤ a.effectiveDateTime) :=
        ⟨fun a b => le_total b.effectiveDateTime a.effectiveDateTime⟩
      haveI : IsTrans PEntry (fun a b => b.effectiveDateTime ≤ a.effectiveDateTime) :=
        ⟨fun a b c hab hbc => le_trans hbc hab⟩
      constructor
      · intro hnil
        have hnil2 : List.insertionSort
            (fun a b : PEntry => b.effectiveDateTime ≤ a.effectiveDateTime) ug.2 = [] := hnil
        have hlen2 := (List.perm_insertionSort
          (fun a b : PEntry => b.effectiveDateTime ≤ a.effectiveDateTime) ug.2).length_eq
        rw [hnil2] at hlen2
        simp at hlen2
        exact hlen0 (by rw [← hlen2])
      · exact List.sorted_insertionSort _ ug.2
    · exact absurd heq (by simp)
  · exact absurd heq (by simp)

theorem C7_groups_sorted_witness :
    (("X", group7w) : String × ObsGroup).2.entries ≠ [] ∧
    List.Pairwise (fun a b : PEntry => b.effectiveDateTime ≤ a.effectiveDateTime)
      (("X", group7w) : String × ObsGroup).2.entries :=
  C7_groups_sorted_nonempty dbTrivial entries7w ("X", group7w) (by decide)

theorem assocGet_cons_pos {α β : Type} [DecidableEq α] {a : α × β} {t : List (α × β)} {k : α}
    (h : a.1 = k) : assocGet (a :: t) k = some a.2 := by
  unfold assocGet
  rw [List.find?_cons_of_pos t (by simp [h])]
  rfl

theorem assocGet_cons_neg {α β : Type} [DecidableEq α] {a : α × β} {t : List (α × β)} {k : α}
    (h : ¬ a.1 = k) : assocGet (a :: t) k = assocGet t k := by
  unfold assocGet
  rw [List.find?_cons_of_neg t (by simp [h])]

theorem map_set_id {α β : Type} [DecidableEq α] {t : List (α × β)} {k : α} {v : β}
    (h : t.any (fun kv => kv.1 = k) = false) :
    t.map (fun kv => if kv.1 = k then (k, v) else kv) = t := by
  rw [List.any_eq_false] at h
  apply List.map_congr_left ?_ |>.trans (List.map_id t)
  intro kv hkv
  have := h kv hkv
  simp at this
  simp [this]

theorem assocSet_cons_hit {α β : Type} [DecidableEq α] {a : α × β} {t : List (α × β)}
    {k : α} {v : β} (h : a.1 = k) :
    assocSet (a :: t) k v = (k, v) :: t.map (fun kv => if kv.1 = k then (k, v) else kv) := by
  have hany : (a :: t).any (fun kv => kv.1 = k) = true := by simp [h]
  simp [assocSet, hany, h]

theorem assocSet_cons_miss_in {α β : Type} [DecidableEq α] {a : α × β} {t : List (α × β)}
    {k : α} {v : β} (h : ¬ a.1 = k) (h2 : t.any (fun kv => kv.1 = k) = true) :
    assocSet (a :: t) k v = a :: assocSet t k v := by
  have hany : (a :: t).any (fun kv => kv.1 = k) = true := by simp [h2]
  simp [assocSet, hany, h, h2]

theorem assocSet_cons_miss_out {α β : Type} [DecidableEq α] {a : α × β} {t : List (α × β)}
    {k : α} {v : β} (h : ¬ a.1 = k) (h2 : t.any (fun kv => kv.1 = k) = false) :
    assocSet (a :: t) k v = a :: assocSet t k v := by
  have hany : (a :: t).any (fun kv => kv.1 = k) = false := by simp [h, h2]
  simp [assocSet, hany, h2]

theorem assocSet_cons {α β : Type} [DecidableEq α] {a : α × β} (t : List (α × β))
    (k : α) (v : β) (h : ¬ a.1 = k) :
    assocSet (a :: t) k v = a :: assocSet t k v := by
  cases h2 : t.any (fun kv => kv.1 = k) with
  | true => exact assocSet_cons_miss_in h h2
  | false => exact assocSet_cons_miss_out h h2

theorem assocGet_assocSet_self {α β : Type} [DecidableEq α] :
    ∀ (m : List (α × β)) (k : α) (v : β), assocGet (assocSet m k v) k = some v := by
  intro m k v
  induction m with
  | nil => simp [assocSet, assocGet]
  | cons a t ih =>
    by_cases ha : a.1 = k
    · rw [assocSet_cons_hit ha, assocGet_cons_pos rfl]
    · rw [assocSet_cons t k v ha, assocGet_cons_neg ha]
      exact ih

theorem assocGet_assocSet_ne {α β : Type} [DecidableEq α] :
    ∀ (m : List (α × β)) (k k2 : α) (v : β), k2 ≠ k →
      assocGet (assocSet m k v) k2 = assocGet m k2 := by
  intro m k k2 v hne
  induction m with
  | nil =>
    simp only [assocSet, List.any_nil, Bool.false_eq_true, if_false, List.nil_append]
    rw [assocGet_cons_neg (fun h => hne h.symm)]
  | cons a t ih =>
    by_cases ha : a.1 = k
    · rw [assocSet_cons_hit ha]
      rw [assocGet_cons_neg (fun h => hne h.symm)]
      by_cases hb : a.1 = k2
      · exact absurd (ha ▸ hb : (k : α) = k2) (fun h => hne h.symm)
      · rw [assocGet_cons_neg hb]
        cases h2 : t.any (fun kv => kv.1 = k) with
        | true =>
          have hset : assocSet t k v = t.map (fun kv => if kv.1 = k then (k, v) else kv) := by
            simp [assocSet, h2]
          rw [← hset]
          exact ih
        | false =>
          rw [map_set_id h2]
    · rw [assocSet_cons t k v ha]
      by_cases hb : a.1 = k2
      · rw [assocGet_cons_pos hb, assocGet_cons_pos hb]
      · rw [assocGet_cons_neg hb, assocGet_cons_neg hb]
        exact ih

theorem assocGet_foldl_assocSet {α β : Type} [DecidableEq α] :
    ∀ (l : List (α × β)) (m : List (α × β)) (k : α),
      assocGet (l.foldl (fun acc kv => assocSet acc kv.1 kv.2) m) k =
        (match l.reverse.find? (fun kv => kv.1 = k) with
          | some kv => some kv.2
          | none => assocGet m k) := by
  intro l
  induction l with
  | nil => intro m k; simp
  | cons kv t ih =>
    intro m k
    rw [List.foldl_cons, ih]
    rw [List.reverse_cons, List.find?_append]
    cases hf : t.reverse.find? (fun kv => kv.1 = k) with
    | some x => simp [Option.or]
    | none =>
      simp only [Option.or, Option.none_or]
      by_cases hk : kv.1 = k
      · rw [List.find?_cons_of_pos _ (by simp [hk]), ← hk,
          assocGet_assocSet_self]
      · rw [List.find?_cons_of_neg _ (by simp [hk]), List.find?_nil,
          assocGet_assocSet_ne m kv.1 k kv.2 (fun h => hk h.symm)]

theorem find?_reverse_of_nodup_keys {α β : Type} [DecidableEq α] :
    ∀ (l : List (α × β)) (k : α), (l.map Prod.fst).Nodup →
      l.reverse.find? (fun kv => kv.1 = k) = l.find? (fun kv => kv.1 = k) := by
  intro l
  induction l with
  | nil => intro k _; simp
  | cons a t ih =>
    intro k hnd
    rw [List.map_cons, List.nodup_cons] at hnd
    obtain ⟨hak, hndt⟩ := hnd
    rw [List.reverse_cons, List.find?_append]
    by_cases hk : a.1 = k
    · have htnone : t.reverse.find? (fun kv => kv.1 = k) = none := by
        rw [List.find?_eq_none]
        intro x hx
        simp only [decide_eq_true_eq]
        intro hxk
        apply hak
        have hxt : x ∈ t := List.mem_reverse.mp hx
        have hmm : x.1 ∈ List.map Prod.fst t := List.mem_map_of_mem Prod.fst hxt
        rwa [hxk, ← hk] at hmm
      rw [htnone, List.find?_cons_of_pos _ (by simp [hk]),
        List.find?_cons_of_pos _ (by simp [hk])]
      simp [Option.or]
    · rw [ih k hndt, List.find?_cons_of_neg _ (by simp [hk]), List.find?_nil, Option.or_none,
        List.find?_cons_of_neg t (by simp [hk])]

theorem recon1_panels (nameMap : ConceptUuid → String) (metaMap : ConceptUuid → ObsMetaInfo) :
    ∀ (l : List ObsRecordRaw) (st : Recon1),
      (l.foldl (parseSingleObsStep nameMap metaMap) st).panels =
        st.panels ++ (panelsRaw l).map (toPanelPre nameMap) := by
  intro l
  induction l with
  | nil => intro st; simp [panelsRaw]
  | cons e t ih =>
    intro st
    rw [List.foldl_cons, ih]
    cases he : e.hasMember with
    | some refs =>
      have hstep : (parseSingleObsStep nameMap metaMap st e).panels =
          st.panels ++ [toPanelPre nameMap e] := by
        simp [parseSingleObsStep, he]
      rw [hstep]
      have hpr : panelsRaw (e :: t) = e :: panelsRaw t := by
        simp [panelsRaw, List.filter_cons, he]
      rw [hpr, List.map_cons, List.append_assoc]
      rfl
    | none =>
      have hstep : (parseSingleObsStep nameMap metaMap st e).panels = st.panels := by
        simp [parseSingleObsStep, he]
      rw [hstep]
      have hpr : panelsRaw (e :: t) = panelsRaw t := by
        simp [panelsRaw, List.filter_cons, he]
      rw [hpr]

theorem recon1_singles (nameMap : ConceptUuid → String) (metaMap : ConceptUuid → ObsMetaInfo) :
    ∀ (l : List ObsRecordRaw) (st : Recon1),
      (l.foldl (parseSingleObsStep nameMap metaMap) st).singles =
        st.singles ++ (l.filter (fun e => e.hasMember.isNone)).map (toSingleObs nameMap metaMap) := by
  intro l
  induction l with
  | nil => intro st; simp
  | cons e t ih =>
    intro st
    rw [List.foldl_cons, ih]
    cases he : e.hasMember with
    | some refs =>
      have hstep : (parseSingleObsStep nameMap metaMap st e).singles = st.singles := by
        simp [parseSingleObsStep, he]
      rw [hstep, List.filter_cons]
      simp [he]
    | none =>
      have hstep : (parseSingleObsStep nameMap metaMap st e).singles =
          st.singles ++ [toSingleObs nameMap metaMap e] := by
        simp [parseSingleObsStep, he]
      rw [hstep, List.filter_cons]
      simp [he]

theorem recon1_memberRefs (nameMap : ConceptUuid → String) (metaMap : ConceptUuid → ObsMetaInfo) :
    ∀ (l : List ObsRecordRaw) (st : Recon1),
      (l.foldl (parseSingleObsStep nameMap metaMap) st).memberRefs =
        (panelRegs st.panels.length l).foldl (fun acc kv => assocSet acc kv.1 kv.2)
          st.memberRefs := by
  intro l
  induction l with
  | nil => intro st; simp [panelRegs]
  | cons e t ih =>
    intro st
    rw [List.foldl_cons, ih]
    cases he : e.hasMember with
    | some refs =>
      have hpanels : (parseSingleObsStep nameMap metaMap st e).panels.length =
          st.panels.length + 1 := by
        simp [parseSingleObsStep, he]
      have hmr : (parseSingleObsStep nameMap metaMap st e).memberRefs =
          (refs.enum.map (fun p => (p.2, (st.panels.length, p.1)))).foldl
            (fun acc kv => assocSet acc kv.1 kv.2) st.memberRefs := by
        simp only [parseSingleObsStep, he]
        rw [List.foldl_map]
      rw [hpanels, hmr]
      have hregs : panelRegs st.panels.length (e :: t) =
          refs.enum.map (fun p => (p.2, (st.panels.length, p.1))) ++
            panelRegs (st.panels.length + 1) t := by
        simp [panelRegs, he]
      rw [hregs, List.foldl_append]
    | none =>
      have hpanels : (parseSingleObsStep nameMap metaMap st e).panels.length =
          st.panels.length := by
        simp [parseSingleObsStep, he]
      have hmr : (parseSingleObsStep nameMap metaMap st e).memberRefs = st.memberRefs := by
        simp [parseSingleObsStep, he]
      have hregs : panelRegs st.panels.length (e :: t) = panelRegs st.panels.length t := by
        simp [panelRegs, he]
      rw [hpanels, hmr, hregs]

theorem recon2_standalone (mr : List (ObsUuid × (Nat × Nat))) :
    ∀ (l : List SingleObs) (st : Recon2),
      (l.foldl (placeSingleStep mr) st).standalone =
        st.standalone ++ l.filter (fun s => (assocGet mr s.id).isNone) := by
  intro l
  induction l with
  | nil => intro st; simp
  | cons s t ih =>
    intro st
    rw [List.foldl_cons, ih]
    cases hg : assocGet mr s.id with
    | some loc =>
      have hstep : (placeSingleStep mr st s).standalone = st.standalone := by
        simp [placeSingleStep, hg]
      rw [hstep, List.filter_cons]
      simp [hg]
    | none =>
      have hstep : (placeSingleStep mr st s).standalone = st.standalone ++ [s] := by
        simp [placeSingleStep, hg]
      rw [hstep, List.filter_cons]
      simp [hg]

theorem recon2_placements (mr : List (ObsUuid × (Nat × Nat))) :
    ∀ (l : List SingleObs) (st : Recon2),
      (l.foldl (placeSingleStep mr) st).placements =
        (l.filterMap (fun s => (assocGet mr s.id).map (fun loc => (loc, s)))).foldl
          (fun acc kv => assocSet acc kv.1 kv.2) st.placements := by
  intro l
  induction l with
  | nil => intro st; simp
  | cons s t ih =>
    intro st
    rw [List.foldl_cons, ih, List.filterMap_cons]
    cases hg : assocGet mr s.id with
    | some loc =>
      have hstep : (placeSingleStep mr st s).placements =
          assocSet st.placements loc s := by
        simp [placeSingleStep, hg]
      rw [hstep]
      simp
    | none =>
      have hstep : (placeSingleStep mr st s).placements = st.placements := by
        simp [placeSingleStep, hg]
      rw [hstep]
      simp

theorem mem_panelRegs :
    ∀ (l : List ObsRecordRaw) (off : Nat) (r : ObsUuid) (pj j : Nat),
      (r, (pj, j)) ∈ panelRegs off l →
      off ≤ pj ∧ ∃ e, (panelsRaw l)[pj - off]? = some e ∧
        (e.hasMember.getD [])[j]? = some r := by
  intro l
  induction l with
  | nil => intro off r pj j h; simp [panelRegs] at h
  | cons e t ih =>
    intro off r pj j h
    cases he : e.hasMember with
    | some refs =>
      rw [panelRegs, he] at h
      have hpr : panelsRaw (e :: t) = e :: panelsRaw t := by
        simp [panelsRaw, List.filter_cons, he]
      rw [List.mem_append] at h
      cases h with
      | inl hm =>
        rw [List.mem_map] at hm
        obtain ⟨ip, hip, hipe⟩ := hm
        have hip1 : ip = (j, r) := by
          have h1 := congrArg Prod.fst hipe
          have h2 := congrArg (fun x => x.2.1) hipe
          have h3 := congrArg (fun x => x.2.2) hipe
          simp at h1 h2 h3
          exact Prod.ext h3 h1
        subst hip1
        obtain ⟨hlt, hval⟩ := List.mem_enum hip
        have hoff : pj = off := by
          have := congrArg (fun x => x.2.1) hipe
          simpa using this.symm
        subst hoff
        refine ⟨le_refl _, e, ?_, ?_⟩
        · rw [hpr]
          simp
        · rw [he]
          simp only [Option.getD_some]
          rw [List.getElem?_eq_getElem hlt, hval]
      | inr hm =>
        obtain ⟨hle, e2, hget, hval⟩ := ih (off + 1) r pj j hm
        refine ⟨by omega, e2, ?_, hval⟩
        rw [hpr]
        have : pj - off = (pj - (off + 1)) + 1 := by omega
        rw [this, List.getElem?_cons_succ]
        exact hget
    | none =>
      rw [panelRegs, he] at h
      have hpr : panelsRaw (e :: t) = panelsRaw t := by
        simp [panelsRaw, List.filter_cons, he]
      rw [hpr]
      exact ih off r pj j h

theorem placements_lookup (mr : List (ObsUuid × (Nat × Nat))) (singles : List SingleObs)
    (loc : Nat × Nat) (s : SingleObs)
    (h : assocGet ((singles.filterMap
        (fun s => (assocGet mr s.id).map (fun loc => (loc, s)))).foldl
        (fun acc kv => assocSet acc kv.1 kv.2) []) loc = some s) :
    s ∈ singles ∧ assocGet mr s.id = some loc := by
  rw [assocGet_foldl_assocSet] at h
  cases hf : (singles.filterMap
      (fun s => (assocGet mr s.id).map (fun loc => (loc, s)))).reverse.find?
      (fun kv => kv.1 = loc) with
  | none => rw [hf] at h; simp [assocGet] at h
  | some kv =>
    rw [hf] at h
    simp only [Option.some_inj] at h
    have hkey : kv.1 = loc := by
      have := List.find?_some hf
      simpa using this
    have hmem : kv ∈ (singles.filterMap
        (fun s => (assocGet mr s.id).map (fun loc => (loc, s)))) :=
      List.mem_reverse.mp (List.mem_of_find?_eq_some hf)
    rw [List.mem_filterMap] at hmem
    obtain ⟨s2, hs2, hmap⟩ := hmem
    cases hg : assocGet mr s2.id with
    | none => rw [hg] at hmap; simp at hmap
    | some loc2 =>
      rw [hg] at hmap
      have hmap2 : some ((loc2, s2) : (Nat × Nat) × SingleObs) = some kv := hmap
      have hmap3 := Option.some.inj hmap2
      have hl2 : loc2 = kv.1 := congrArg Prod.fst hmap3
      have hs2kv : s2 = kv.2 := congrArg Prod.snd hmap3
      rw [hs2kv, h] at hs2 hg
      rw [hl2, hkey] at hg
      exact ⟨hs2, hg⟩

theorem resolvedPanels_mem (db : ConceptUuid → ConceptRecord) (entries : List ObsRecordRaw)
    (p : PanelObs) (hp : p ∈ resolvedPanelsOf db entries) :
    ∃ pidx pre, (recon1 db entries).panels[pidx]? = some pre ∧
      p = resolvePanel (recon2 db entries).placements pidx pre := by
  rw [resolvedPanelsOf, List.mem_map] at hp
  obtain ⟨ip, hip, hipe⟩ := hp
  obtain ⟨hlt, hval⟩ := List.mem_enum hip
  refine ⟨ip.1, ip.2, ?_, hipe.symm⟩
  rw [List.getElem?_eq_getElem hlt, hval]

theorem reconstruct_panel_mem (db : ConceptUuid → ConceptRecord) (entries : List ObsRecordRaw)
    (kv : String × ObsGroup) (hkv : kv ∈ reconstruct db entries)
    (p : PanelObs) (hp : PEntry.panel p ∈ kv.2.entries) :
    p ∈ resolvedPanelsOf db entries := by
  simp only [reconstruct] at hkv
  rw [List.mem_filterMap] at hkv
  obtain ⟨ug, hmem, heq⟩ := hkv
  split at heq
  · split at heq
    · rename_i r hget
      cases heq
      have hps : PEntry.panel p ∈
          List.insertionSort (fun a b : PEntry => b.effectiveDateTime ≤ a.effectiveDateTime)
            ug.2 := hp
      have hpm : PEntry.panel p ∈ ug.2 :=
        (List.perm_insertionSort _ ug.2).mem_iff.mp hps
      rw [List.mem_map] at hmem
      obtain ⟨u, hu, hue⟩ := hmem
      have hg : ug.2 = groupFor db entries u := by rw [← hue]
      rw [hg, groupFor, List.mem_append] at hpm
      cases hpm with
      | inl hl =>
        rw [List.mem_map] at hl
        obtain ⟨p2, hp2, hp2e⟩ := hl
        have : p2 = p := by injection hp2e
        rw [← this]
        exact List.mem_of_mem_filter hp2
      | inr hr =>
        rw [List.mem_map] at hr
        obtain ⟨s2, _, hs2e⟩ := hr
        exact absurd hs2e (by simp)
    · exact absurd heq (by simp)
  · exact absurd heq (by simp)

theorem resolvePanel_members_get (placements : List ((Nat × Nat) × SingleObs)) (pidx : Nat)
    (pre : PanelPre) (i : Nat) (hi : i < pre.hasMember.length) :
    (resolvePanel placements pidx pre).members[i]? = some (assocGet placements (pidx, i)) := by
  simp only [resolvePanel]
  rw [List.getElem?_map]
  rw [List.getElem?_range hi]
  rfl

theorem singles_provenance (db : ConceptUuid → ConceptRecord) (entries : List ObsRecordRaw)
    (s : SingleObs) (hs : s ∈ (recon1 db entries).singles) :
    ∃ e ∈ entries, e.hasMember = none ∧
      s = toSingleObs (lookupName (testConceptsOf db entries))
        (lookupMeta (extractMetaInformation (testConceptsOf db entries))) e := by
  rw [recon1, recon1_singles] at hs
  simp only [Recon1.singles, List.nil_append] at hs
  rw [List.mem_map] at hs
  obtain ⟨e, he, hee⟩ := hs
  have hmem : e ∈ recognizedEntries db entries := List.mem_of_mem_filter he
  have hnone : e.hasMember = none := by
    have := List.of_mem_filter he
    simpa using this
  exact ⟨e, List.mem_of_mem_filter hmem, hnone, hee.symm⟩

theorem memberRefs_provenance (db : ConceptUuid → ConceptRecord) (entries : List ObsRecordRaw)
    (r : ObsUuid) (loc : Nat × Nat)
    (h : assocGet (recon1 db entries).memberRefs r = some loc) :
    (r, loc) ∈ panelRegs 0 (recognizedEntries db entries) := by
  rw [recon1, recon1_memberRefs] at h
  simp only [Recon1.panels, Recon1.memberRefs, List.length_nil] at h
  rw [assocGet_foldl_assocSet] at h
  cases hf : (panelRegs 0 (recognizedEntries db entries)).reverse.find?
      (fun kv => kv.1 = r) with
  | none => rw [hf] at h; simp [assocGet] at h
  | some kv =>
    rw [hf] at h
    simp only [Option.some_inj] at h
    have hkey : kv.1 = r := by
      have := List.find?_some hf
      simpa using this
    have hmem : kv ∈ panelRegs 0 (recognizedEntries db entries) :=
      List.mem_reverse.mp (List.mem_of_find?_eq_some hf)
    have : kv = (r, loc) := by
      rw [Prod.ext_iff]
      exact ⟨hkey, h⟩
    rwa [this] at hmem

theorem panels_provenance (db : ConceptUuid → ConceptRecord) (entries : List ObsRecordRaw)
    (pidx : Nat) (pre : PanelPre) (h : (recon1 db entries).panels[pidx]? = some pre) :
    ∃ e, (panelsRaw (recognizedEntries db entries))[pidx]? = some e ∧
      pre = toPanelPre (lookupName (testConceptsOf db entries)) e := by
  rw [recon1, recon1_panels] at h
  simp only [Recon1.panels, List.nil_append] at h
  rw [List.getElem?_map] at h
  cases hg : (panelsRaw (recognizedEntries db entries))[pidx]? with
  | none => rw [hg] at h; simp at h
  | some e =>
    rw [hg] at h
    have h2 : some (toPanelPre (lookupName (testConceptsOf db entries)) e) = some pre := h
    exact ⟨e, rfl, (Option.some.inj h2).symm⟩

theorem panel_members_length (db : ConceptUuid → ConceptRecord) (entries : List ObsRecordRaw)
    (kv : String × ObsGroup) (p : PanelObs)
    (hkv : kv ∈ reconstruct db entries) (hp : PEntry.panel p ∈ kv.2.entries) :
    p.members.length = p.hasMember.length := by
  obtain ⟨pidx, pre, hpre, hpeq⟩ :=
    resolvedPanels_mem db entries p (reconstruct_panel_mem db entries kv hkv p hp)
  rw [hpeq]
  simp [resolvePanel]

theorem panel_slot_filled (db : ConceptUuid → ConceptRecord) (entries : List ObsRecordRaw)
    (kv : String × ObsGroup) (p : PanelObs) (i : Nat) (s : SingleObs)
    (hkv : kv ∈ reconstruct db entries) (hp : PEntry.panel p ∈ kv.2.entries)
    (hslot : p.members[i]? = some (some s)) :
    ∃ e ∈ entries, e.hasMember = none ∧ s.id = e.id ∧ p.hasMember[i]? = some s.id := by
  obtain ⟨pidx, pre, hpre, hpeq⟩ :=
    resolvedPanels_mem db entries p (reconstruct_panel_mem db entries kv hkv p hp)
  have hmemlen : p.members.length = pre.hasMember.length := by
    rw [hpeq]; simp [resolvePanel]
  have hi : i < pre.hasMember.length := by
    by_contra hge
    push_neg at hge
    rw [List.getElem?_eq_none (by omega)] at hslot
    simp at hslot
  have hget : p.members[i]? = some (assocGet (recon2 db entries).placements (pidx, i)) := by
    rw [hpeq]
    exact resolvePanel_members_get _ _ _ _ hi
  rw [hget] at hslot
  have hpl : assocGet (recon2 db entries).placements (pidx, i) = some s :=
    Option.some.inj hslot
  have hplch : (recon2 db entries).placements =
      (((recon1 db entries).singles.filterMap
        (fun s => (assocGet (recon1 db entries).memberRefs s.id).map
          (fun loc => (loc, s)))).foldl
        (fun acc kv => assocSet acc kv.1 kv.2) []) := by
    rw [recon2, recon2_placements]
  rw [hplch] at hpl
  obtain ⟨hsing, hmr⟩ := placements_lookup _ _ _ _ hpl
  obtain ⟨e, he, henone, hseq⟩ := singles_provenance db entries s hsing
  have hsid : s.id = e.id := by rw [hseq]; rfl
  obtain ⟨_, e2, hge2, hre2⟩ := mem_panelRegs _ 0 s.id pidx i
    (memberRefs_provenance db entries s.id (pidx, i) hmr)
  rw [Nat.sub_zero] at hge2
  obtain ⟨e3, hge3, hpre3⟩ := panels_provenance db entries pidx pre hpre
  have he23 : e2 = e3 := by
    rw [hge2] at hge3
    exact Option.some.inj hge3
  have hhm : pre.hasMember = e2.hasMember.getD [] := by
    rw [hpre3, he23]
    rfl
  have hphm : p.hasMember = pre.hasMember := by
    rw [hpeq]
    rfl
  have hfinal : p.hasMember[i]? = some s.id := by
    rw [hphm, hhm]
    exact hre2
  exact ⟨e, he, henone, hsid, hfinal⟩

/-- C6: every reconstructed panel has exactly one member slot per
declared member reference, and a declared member identifier matched by
no single-test raw entry leaves `none` at its declared index (the slot
is kept, later members are not shifted). -/
theorem C6_panel_member_slots :
    ∀ (db : ConceptUuid → ConceptRecord) (entries : List ObsRecordRaw)
      (kv : String × ObsGroup), kv ∈ reconstruct db entries →
    ∀ p, PEntry.panel p ∈ kv.2.entries →
      p.members.length = p.hasMember.length ∧
      ∀ (i : Nat) (r : ObsUuid), p.hasMember[i]? = some r →
        (∀ e ∈ entries, e.hasMember = none → e.id ≠ r) →
        p.members[i]? = some none := by
  intro db entries kv hkv p hp
  refine ⟨panel_members_length db entries kv p hkv hp, ?_⟩
  intro i r hr hno
  have hi : i < p.hasMember.length := by
    by_contra hge
    push_neg at hge
    rw [List.getElem?_eq_none hge] at hr
    simp at hr
  have hlen := panel_members_length db entries kv p hkv hp
  have hi2 : i < p.members.length := by omega
  have ho : p.members[i]? = some (p.members.get ⟨i, hi2⟩) := by
    rw [List.getElem?_eq_getElem hi2, List.get_eq_getElem]
  cases hov : p.members.get ⟨i, hi2⟩ with
  | none => rw [hov] at ho; exact ho
  | some s =>
    rw [hov] at ho
    obtain ⟨e, he, henone, hid, hhm⟩ := panel_slot_filled db entries kv p i s hkv hp ho
    have hsr : s.id = r := by
      rw [hhm] at hr
      exact Option.some.inj hr
    have : e.id = r := by rw [← hid, hsr]
    exact absurd this (hno e he henone)

/-- C10: an entry that itself declares members is never placed into a
referencing panel's member slot (only member-less entries are matched
against the back-pointer table): when a declared reference points at a
panel entry's identifier, and no member-less entry shares that
identifier, the slot stays absent. -/
theorem C10_panel_never_placed :
    ∀ (db : ConceptUuid → ConceptRecord) (entries : List ObsRecordRaw)
      (kv : String × ObsGroup), kv ∈ reconstruct db entries →
    ∀ p, PEntry.panel p ∈ kv.2.entries →
    ∀ (i : Nat) (q : ObsRecordRaw), q ∈ entries → q.hasMember.isSome →
      p.hasMember[i]? = some q.id →
      (∀ e ∈ entries, e.id = q.id → e.hasMember.isSome) →
      p.members[i]? = some none := by
  intro db entries kv hkv p hp i q hq hqpanel href hunique
  have hi : i < p.hasMember.length := by
    by_contra hge
    push_neg at hge
    rw [List.getElem?_eq_none hge] at href
    simp at href
  have hlen := panel_members_length db entries kv p hkv hp
  have hi2 : i < p.members.length := by omega
  have ho : p.members[i]? = some (p.members.get ⟨i, hi2⟩) := by
    rw [List.getElem?_eq_getElem hi2, List.get_eq_getElem]
  cases hov : p.members.get ⟨i, hi2⟩ with
  | none => rw [hov] at ho; exact ho
  | some s =>
    rw [hov] at ho
    obtain ⟨e, he, henone, hid, hhm⟩ := panel_slot_filled db entries kv p i s hkv hp ho
    have hsq : s.id = q.id := by
      rw [hhm] at href
      exact Option.some.inj href
    have heq : e.id = q.id := by rw [← hid, hsq]
    have := hunique e he heq
    rw [henone] at this
    simp at this

theorem C6_panel_member_slots_witness :
    panel6w.members.length = panel6w.hasMember.length ∧ panel6w.members[0]? = some none := by
  have h := C6_panel_member_slots db6 entries6 ("Panel", group6w) (by decide) panel6w (by decide)
  exact ⟨h.1, h.2 0 "m" (by decide) (by decide)⟩

theorem C10_panel_never_placed_witness : panel10w.members[0]? = some none :=
  C10_panel_never_placed db6 entries10 ("Panel", group10w) (by decide) panel10w (by decide)
    0 raw10q (by decide) (by decide) (by decide) (by decide)

theorem rtrimNone_append_none {α : Type} (l : List (Option α)) :
    rtrimNone (l ++ [none]) = rtrimNone l := by
  simp [rtrimNone, List.dropWhile_cons]

theorem rtrimNone_append_some {α : Type} (l : List (Option α)) (a : α) :
    rtrimNone (l ++ [some a]) = l ++ [some a] := by
  simp [rtrimNone, List.dropWhile_cons]

theorem rtrimNone_restore {α : Type} (l : List (Option α)) :
    ∃ k, l = rtrimNone l ++ List.replicate k none := by
  refine ⟨(l.reverse.takeWhile (fun o => o.isNone)).length, ?_⟩
  have htw : l.reverse.takeWhile (fun o : Option α => o.isNone) =
      List.replicate (l.reverse.takeWhile (fun o : Option α => o.isNone)).length none := by
    apply List.eq_replicate_of_mem
    intro b hb
    have hp := List.mem_takeWhile_imp hb
    cases b
    · rfl
    · simp at hp
  have hsplit : l.reverse.takeWhile (fun o : Option α => o.isNone) ++
      l.reverse.dropWhile (fun o : Option α => o.isNone) = l.reverse :=
    List.takeWhile_append_dropWhile _ _
  calc l = ((l.reverse.takeWhile (fun o : Option α => o.isNone)) ++
        (l.reverse.dropWhile (fun o : Option α => o.isNone))).reverse := by
        rw [hsplit, List.reverse_reverse]
    _ = (l.reverse.dropWhile (fun o : Option α => o.isNone)).reverse ++
        (l.reverse.takeWhile (fun o : Option α => o.isNone)).reverse := by
        rw [List.reverse_append]
    _ = rtrimNone l ++ List.replicate
          (l.reverse.takeWhile (fun o : Option α => o.isNone)).length none := by
        rw [rtrimNone]
        congr 1
        rw [htw, List.reverse_replicate, List.length_replicate]

theorem replicate_set {α : Type} (d : Nat) (v : α) (a : α) :
    (List.replicate (d + 1) a).set d v = List.replicate d a ++ [v] := by
  induction d with
  | zero => rfl
  | succ d ih =>
    have h1 : List.replicate (d + 1 + 1) a = a :: List.replicate (d + 1) a := rfl
    have h2 : List.replicate (d + 1) a = a :: List.replicate d a := rfl
    rw [h1, List.set_cons_succ, ih, h2]
    rfl

theorem setSparse_of_length_le {α : Type} (r : List (Option α)) (i : Nat) (v : α)
    (h : r.length ≤ i) :
    setSparse r i v = r ++ List.replicate (i - r.length) none ++ [some v] := by
  unfold setSparse
  have hd : i + 1 - r.length = (i - r.length) + 1 := by omega
  rw [hd, List.set_append, if_neg (by omega)]
  have hidx : i - r.length = i - r.length := rfl
  rw [replicate_set (i - r.length) (some v) none]
  rw [List.append_assoc]

theorem setSparse_length {α : Type} (r : List (Option α)) (i : Nat) (v : α) :
    (setSparse r i v).length = max r.length (i + 1) := by
  unfold setSparse
  rw [List.length_set, List.length_append, List.length_replicate]
  omega

theorem setSparse_setSparse {α : Type} (r : List (Option α)) (i : Nat) (v w : α) :
    setSparse (setSparse r i v) i w = setSparse r i w := by
  have hlen : (setSparse r i v).length = max r.length (i + 1) := setSparse_length r i v
  conv_lhs => rw [setSparse]
  have hpad : i + 1 - (setSparse r i v).length = 0 := by omega
  rw [hpad, List.replicate_zero, List.append_nil]
  conv_lhs => rw [setSparse]
  rw [List.set_set]
  rfl

theorem getLast?_cons_elim {α : Type} (a : α) (l : List α) :
    (a :: l).getLast? = (match l.getLast? with
      | some x => some x
      | none => some a) := by
  cases l with
  | nil => rfl
  | cons b t =>
    rw [List.getLast?_cons_cons]
    have hs : (b :: t).getLast?.isSome = true := List.getLast?_isSome.mpr (by simp)
    obtain ⟨x, hx⟩ := Option.isSome_iff_exists.mp hs
    rw [hx]

theorem pivot_inner (idx : Nat) (nm : String) :
    ∀ (ms : List (Option SingleObs)) (rows : List (String × List (Option SingleObs))),
      assocGet (ms.foldl (pivotStep idx) rows) nm =
        (match ((ms.filterMap id).filter (fun m => m.name = nm)).getLast? with
         | none => assocGet rows nm
         | some m => some (setSparse ((assocGet rows nm).getD []) idx m)) := by
  intro ms
  induction ms with
  | nil => intro rows; rfl
  | cons m t ih =>
    intro rows
    cases m with
    | none =>
      rw [List.foldl_cons]
      have hskip : pivotStep idx rows none = rows := rfl
      rw [hskip, ih]
      rfl
    | some member =>
      rw [List.foldl_cons]
      have hstep : pivotStep idx rows (some member) =
          assocSet rows member.name
            (setSparse ((assocGet rows member.name).getD []) idx member) := rfl
      rw [hstep, ih]
      by_cases hnm : member.name = nm
      · subst hnm
        have hfl : ((some member :: t).filterMap id).filter
            (fun m2 => m2.name = member.name) =
            member :: ((t.filterMap id).filter (fun m2 => m2.name = member.name)) := by
          simp [List.filterMap_cons, List.filter_cons]
        rw [hfl, getLast?_cons_elim]
        rw [assocGet_assocSet_self]
        cases hL : ((t.filterMap id).filter (fun m2 => m2.name = member.name)).getLast? with
        | none => simp
        | some m2 =>
          simp only [Option.getD_some]
          rw [setSparse_setSparse]
      · have hfl : ((some member :: t).filterMap id).filter (fun m2 => m2.name = nm) =
            (t.filterMap id).filter (fun m2 => m2.name = nm) := by
          simp [List.filterMap_cons, List.filter_cons, hnm]
        rw [hfl]
        rw [assocGet_assocSet_ne rows member.name nm _ (fun h => hnm h.symm)]

theorem parseEntries_step (es : List PanelObs) (p : PanelObs) :
    parseEntries (es ++ [p]) = p.members.foldl (pivotStep es.length) (parseEntries es) := by
  unfold parseEntries
  rw [List.enum_append, List.foldl_append]
  rfl

theorem parseEntries_row_eq (nm : String) :
    ∀ (entries : List PanelObs),
      assocGet (parseEntries entries) nm =
        (if rtrimNone (entries.map (lastMemberNamed nm)) = [] then none
         else some (rtrimNone (entries.map (lastMemberNamed nm)))) := by
  intro entries
  induction entries using List.reverseRecOn with
  | nil => rfl
  | append_singleton es p ih =>
    rw [parseEntries_step, pivot_inner es.length nm p.members (parseEntries es)]
    rw [List.map_append]
    simp only [List.map_cons, List.map_nil]
    cases hf : lastMemberNamed nm p with
    | none =>
      have hscrut : ((p.members.filterMap id).filter (fun m => m.name = nm)).getLast? =
          none := hf
      rw [hscrut, ih, rtrimNone_append_none]
    | some m =>
      have hscrut : ((p.members.filterMap id).filter (fun m => m.name = nm)).getLast? =
          some m := hf
      rw [hscrut, rtrimNone_append_some,
        if_neg (by simp : ¬ (es.map (lastMemberNamed nm) ++ [some m] = []))]
      have hred : (match some m with
          | none => assocGet (parseEntries es) nm
          | some m => some (setSparse ((assocGet (parseEntries es) nm).getD []) es.length m)) =
          some (setSparse ((assocGet (parseEntries es) nm).getD []) es.length m) := rfl
      rw [hred, ih]
      obtain ⟨k, hk⟩ := rtrimNone_restore (es.map (lastMemberNamed nm))
      have hlenmap : (es.map (lastMemberNamed nm)).length = es.length := List.length_map _ _
      by_cases hnil : rtrimNone (es.map (lastMemberNamed nm)) = []
      · rw [if_pos hnil]
        rw [hnil, List.nil_append] at hk
        have hkval : k = es.length := by
          have hlen2 := congrArg List.length hk
          rw [List.length_replicate, hlenmap] at hlen2
          omega
        simp only [Option.getD_none]
        rw [setSparse_of_length_le [] es.length m (by simp)]
        simp only [List.length_nil, Nat.sub_zero, List.nil_append]
        rw [hk, hkval]
      · rw [if_neg hnil]
        simp only [Option.getD_some]
        have hlen2 := congrArg List.length hk
        rw [List.length_append, List.length_replicate, hlenmap] at hlen2
        have hle : (rtrimNone (es.map (lastMemberNamed nm))).length ≤ es.length := by omega
        rw [setSparse_of_length_le _ es.length m hle]
        have hkval : es.length - (rtrimNone (es.map (lastMemberNamed nm))).length = k := by
          omega
        rw [hkval]
        congr 1
        rw [← hk]

/-- C8 (amended): a pivot row exists for a member name exactly when
some entry carries a member with that name; the row equals the
positionally aligned series of that member over the entry list with
trailing absent slots trimmed — so `row[i]` is the member named `nm`
of entry `i` (`none` where that member had no value), and the row's
length is the last occurrence index plus one, at most (not always
equal to) the entry-list length. -/
theorem C8_pivot_rows :
    ∀ (entries : List PanelObs) (nm : String),
      (assocGet (parseEntries entries) nm =
        (if rtrimNone (entries.map (lastMemberNamed nm)) = [] then none
         else some (rtrimNone (entries.map (lastMemberNamed nm))))) ∧
      (∀ row, assocGet (parseEntries entries) nm = some row →
        row.length ≤ entries.length ∧
        ∀ (i : Nat), i < row.length →
          row[i]? = (entries.map (lastMemberNamed nm))[i]?) := by
  intro entries nm
  refine ⟨parseEntries_row_eq nm entries, ?_⟩
  intro row hrow
  rw [parseEntries_row_eq nm entries] at hrow
  by_cases hnil : rtrimNone (entries.map (lastMemberNamed nm)) = []
  · rw [if_pos hnil] at hrow
    simp at hrow
  · rw [if_neg hnil] at hrow
    have hroweq : row = rtrimNone (entries.map (lastMemberNamed nm)) :=
      (Option.some.inj hrow).symm
    obtain ⟨k, hk⟩ := rtrimNone_restore (entries.map (lastMemberNamed nm))
    have hlenmap : (entries.map (lastMemberNamed nm)).length = entries.length :=
      List.length_map _ _
    have hlen2 := congrArg List.length hk
    rw [List.length_append, List.length_replicate, hlenmap] at hlen2
    constructor
    · rw [hroweq]; omega
    · intro i hi
      rw [hroweq] at hi ⊢
      conv_rhs => rw [hk]
      rw [List.getElem?_append_left hi]

/-- C8 counterexample: with two entries where only the first carries
member "A", the row for "A" has length 1, not the entry-list length
2 — the claimed "array of the same length as the entry list" fails. -/
theorem C8_pivot_counterexample :
    ∃ row, assocGet (parseEntries entries8) "A" = some row ∧
      row.length ≠ entries8.length := by
  decide

/-- Witness for C8 (amended) at the `entries8` input. -/
theorem C8_pivot_witness :
    [(some single8A : Option SingleObs)].length ≤ entries8.length ∧
    ∀ (i : Nat), i < [(some single8A : Option SingleObs)].length →
      [(some single8A : Option SingleObs)][i]? =
        (entries8.map (lastMemberNamed "A"))[i]? :=
  (C8_pivot_rows entries8 "A").2 [some single8A] (by decide)

theorem mem_foldl_setDedup {α : Type} [DecidableEq α] :
    ∀ (l : List α) (acc : List α) (a : α),
      a ∈ l.foldl (fun acc a => if a ∈ acc then acc else acc ++ [a]) acc ↔
        a ∈ acc ∨ a ∈ l := by
  intro l
  induction l with
  | nil => intro acc a; simp
  | cons b t ih =>
    intro acc a
    rw [List.foldl_cons, ih]
    by_cases hb : b ∈ acc
    · rw [if_pos hb]
      constructor
      · rintro (h | h)
        · exact Or.inl h
        · exact Or.inr (List.mem_cons_of_mem b h)
      · rintro (h | h)
        · exact Or.inl h
        · cases List.mem_cons.mp h with
          | inl he => exact Or.inl (he ▸ hb)
          | inr ht => exact Or.inr ht
    · rw [if_neg hb]
      simp only [List.mem_append, List.mem_singleton, List.mem_cons]
      tauto

theorem mem_setDedup {α : Type} [DecidableEq α] (l : List α) (a : α) :
    a ∈ setDedup l ↔ a ∈ l := by
  rw [setDedup, mem_foldl_setDedup]
  simp

theorem nodup_foldl_setDedup {α : Type} [DecidableEq α] :
    ∀ (l : List α) (acc : List α), acc.Nodup →
      (l.foldl (fun acc a => if a ∈ acc then acc else acc ++ [a]) acc).Nodup := by
  intro l
  induction l with
  | nil => intro acc h; exact h
  | cons b t ih =>
    intro acc h
    rw [List.foldl_cons]
    by_cases hb : b ∈ acc
    · rw [if_pos hb]; exact ih acc h
    · rw [if_neg hb]
      apply ih
      rw [List.nodup_append]
      exact ⟨h, List.nodup_singleton b, by simpa using hb⟩

theorem nodup_setDedup {α : Type} [DecidableEq α] (l : List α) : (setDedup l).Nodup :=
  nodup_foldl_setDedup l [] List.nodup_nil

theorem setDedup_perm {α : Type} [DecidableEq α] (l l2 : List α) (h : l.Perm l2) :
    (setDedup l).Perm (setDedup l2) := by
  rw [List.perm_ext_iff_of_nodup (nodup_setDedup l) (nodup_setDedup l2)]
  intro a
  rw [mem_setDedup, mem_setDedup]
  exact h.mem_iff

theorem find?_eq_self {α : Type} [DecidableEq α] (dd : List α) (k : α) :
    dd.find? (fun x => x = k) = if k ∈ dd then some k else none := by
  induction dd with
  | nil => simp
  | cons b t ih =>
    by_cases hb : b = k
    · subst hb
      rw [List.find?_cons_of_pos _ (by simp)]
      simp
    · rw [List.find?_cons_of_neg _ (by simp [hb]), ih]
      by_cases hk : k ∈ t
      · rw [if_pos hk, if_pos (List.mem_cons_of_mem b hk)]
      · rw [if_neg hk, if_neg ?_]
        intro hkm
        cases List.mem_cons.mp hkm with
        | inl he => exact hb he.symm
        | inr ht => exact hk ht

theorem assoc_value_unique {α β : Type} (l : List (α × β)) (hnd : (l.map Prod.fst).Nodup)
    (k : α) (v1 v2 : β) (h1 : (k, v1) ∈ l) (h2 : (k, v2) ∈ l) : v1 = v2 := by
  induction l with
  | nil => simp at h1
  | cons a t ih =>
    rw [List.map_cons, List.nodup_cons] at hnd
    obtain ⟨hak, hndt⟩ := hnd
    cases List.mem_cons.mp h1 with
    | inl he1 =>
      cases List.mem_cons.mp h2 with
      | inl he2 => rw [← he1] at he2; exact (congrArg Prod.snd he2).symm
      | inr ht2 =>
        exfalso
        apply hak
        rw [show a.1 = k from (congrArg Prod.fst he1).symm]
        exact List.mem_map_of_mem Prod.fst ht2
    | inr ht1 =>
      cases List.mem_cons.mp h2 with
      | inl he2 =>
        exfalso
        apply hak
        rw [show a.1 = k from (congrArg Prod.fst he2).symm]
        exact List.mem_map_of_mem Prod.fst ht1
      | inr ht2 => exact ih hndt ht1 ht2

theorem assoc_key_unique {α β : Type} (l : List (α × β)) (hnd : (l.map Prod.snd).Nodup)
    (k1 k2 : α) (v : β) (h1 : (k1, v) ∈ l) (h2 : (k2, v) ∈ l) : k1 = k2 := by
  induction l with
  | nil => simp at h1
  | cons a t ih =>
    rw [List.map_cons, List.nodup_cons] at hnd
    obtain ⟨hav, hndt⟩ := hnd
    cases List.mem_cons.mp h1 with
    | inl he1 =>
      cases List.mem_cons.mp h2 with
      | inl he2 => rw [← he1] at he2; exact (congrArg Prod.fst he2).symm
      | inr ht2 =>
        exfalso
        apply hav
        rw [show a.2 = v from (congrArg Prod.snd he1).symm]
        exact List.mem_map_of_mem Prod.snd ht2
    | inr ht1 =>
      cases List.mem_cons.mp h2 with
      | inl he2 =>
        exfalso
        apply hav
        rw [show a.2 = v from (congrArg Prod.snd he2).symm]
        exact List.mem_map_of_mem Prod.snd ht1
      | inr ht2 => exact ih hndt ht1 ht2

theorem find?_eq_of_mem_iff_of_nodup_keys {α β : Type} [DecidableEq α]
    (f : β → α) (l l2 : List β)
    (hnd : (l.map f).Nodup)
    (hmem : ∀ x, x ∈ l ↔ x ∈ l2)
    (hnd2 : (l2.map f).Nodup) (k : α) :
    l.find? (fun x => f x = k) = l2.find? (fun x => f x = k) := by
  cases hf : l.find? (fun x => f x = k) with
  | some x =>
    have hx : f x = k := by simpa using List.find?_some hf
    have hxl : x ∈ l := List.mem_of_find?_eq_some hf
    have hxl2 : x ∈ l2 := (hmem x).mp hxl
    cases hf2 : l2.find? (fun x => f x = k) with
    | none =>
      rw [List.find?_eq_none] at hf2
      exact absurd (by simpa using hx) (hf2 x hxl2)
    | some y =>
      have hy : f y = k := by simpa using List.find?_some hf2
      have hyl2 : y ∈ l2 := List.mem_of_find?_eq_some hf2
      have hyl : y ∈ l := (hmem y).mpr hyl2
      have hfx : (f x, x) ∈ l.map (fun b => (f b, b)) := by
        exact List.mem_map_of_mem _ hxl
      have hfy : (f y, y) ∈ l.map (fun b => (f b, b)) := by
        exact List.mem_map_of_mem _ hyl
      have hnd3 : ((l.map (fun b => (f b, b))).map Prod.fst).Nodup := by
        rw [List.map_map]
        exact hnd
      have : x = y := by
        apply assoc_value_unique _ hnd3 k
        · rw [← hx]; exact hfx
        · rw [← hx, hx, ← hy]; exact hfy
      rw [this]
  | none =>
    rw [List.find?_eq_none] at hf
    cases hf2 : l2.find? (fun x => f x = k) with
    | none => rfl
    | some y =>
      have hyl2 : y ∈ l2 := List.mem_of_find?_eq_some hf2
      have hyl : y ∈ l := (hmem y).mpr hyl2
      exact absurd (List.find?_some hf2) (hf y hyl)

theorem sorted_strict_desc_eq_of_perm {α : Type} (f : α → Int) :
    ∀ (l l2 : List α), l.Perm l2 →
      List.Pairwise (fun a b => f b < f a) l →
      List.Pairwise (fun a b => f b < f a) l2 →
      l = l2 := by
  intro l
  induction l with
  | nil => intro l2 h _ _; exact h.nil_eq
  | cons a t ih =>
    intro l2 h hs hs2
    cases l2 with
    | nil => exact absurd h.symm (by simp)
    | cons a2 t2 =>
      obtain ⟨ha, hst⟩ := List.pairwise_cons.mp hs
      obtain ⟨ha2, hst2⟩ := List.pairwise_cons.mp hs2
      have haa : a = a2 := by
        by_contra hne
        have hal2 : a ∈ a2 :: t2 := h.mem_iff.mp (List.mem_cons_self a t)
        have ha2l : a2 ∈ a :: t := h.mem_iff.mpr (List.mem_cons_self a2 t2)
        have h1 : a ∈ t2 := by
          cases List.mem_cons.mp hal2 with
          | inl he => exact absurd he hne
          | inr ht => exact ht
        have h2 : a2 ∈ t := by
          cases List.mem_cons.mp ha2l with
          | inl he => exact absurd he.symm hne
          | inr ht => exact ht
        have := ha2 a h1
        have := ha a2 h2
        omega
      subst haa
      have ht : t.Perm t2 := h.cons_inv
      rw [ih t2 ht hst hst2]

theorem testUuids_eq (db : ConceptUuid → ConceptRecord) (l : List ObsRecordRaw) :
    (testConceptsOf db l).map (fun uc => uc.1) =
      (setDedup (l.map getEntryConceptClassUuid)).filter (isTestCode db) := by
  rw [testConceptsOf, loadPresentConcepts, List.filter_map, List.map_map]
  have h1 : ((fun uc : ConceptUuid × ConceptRecord => uc.1) ∘ (fun u => (u, db u))) = id := rfl
  have h2 : ((fun uc : ConceptUuid × ConceptRecord => isTestConcept uc.2) ∘ (fun u => (u, db u))) =
      isTestCode db := rfl
  rw [h1, h2, List.map_id]

theorem mem_testUuids (db : ConceptUuid → ConceptRecord) (l : List ObsRecordRaw)
    (u : ConceptUuid) :
    u ∈ (testConceptsOf db l).map (fun uc => uc.1) ↔
      u ∈ l.map getEntryConceptClassUuid ∧ isTestCode db u := by
  rw [testUuids_eq, List.mem_filter, mem_setDedup]

theorem testUuids_nodup (db : ConceptUuid → ConceptRecord) (l : List ObsRecordRaw) :
    ((testConceptsOf db l).map (fun uc => uc.1)).Nodup := by
  rw [testUuids_eq]
  exact (nodup_setDedup _).filter _

theorem recognizedEntries_eq (db : ConceptUuid → ConceptRecord) (l : List ObsRecordRaw) :
    recognizedEntries db l = l.filter (recogB db) := by
  rw [recognizedEntries]
  apply List.filter_congr
  intro e he
  cases hrec : recogB db e with
  | true =>
    apply decide_eq_true
    exact (mem_testUuids db l _).mpr ⟨List.mem_map_of_mem _ he, hrec⟩
  | false =>
    apply decide_eq_false
    intro hmem
    have hT := ((mem_testUuids db l _).mp hmem).2
    have hrec2 : isTestCode db (getEntryConceptClassUuid e) = false := hrec
    rw [hrec2] at hT
    simp at hT

theorem assocGet_testConceptsOf (db : ConceptUuid → ConceptRecord) (l : List ObsRecordRaw)
    (u : ConceptUuid) :
    assocGet (testConceptsOf db l) u =
      if u ∈ (testConceptsOf db l).map (fun uc => uc.1) then some (db u) else none := by
  rw [testUuids_eq, testConceptsOf, loadPresentConcepts, List.filter_map]
  rw [assocGet, List.find?_map]
  have hcomp : ((fun kv : ConceptUuid × ConceptRecord => decide (kv.1 = u)) ∘
      (fun v => (v, db v))) = (fun x => decide (x = u)) := rfl
  rw [hcomp]
  have h2 : ((fun uc : ConceptUuid × ConceptRecord => isTestConcept uc.2) ∘ (fun v => (v, db v))) =
      isTestCode db := rfl
  rw [h2, find?_eq_self]
  by_cases hm : u ∈ (setDedup (l.map getEntryConceptClassUuid)).filter (isTestCode db)
  · rw [if_pos hm, if_pos hm]
    rfl
  · rw [if_neg hm, if_neg hm]
    rfl

theorem assocGet_map_snd {α β γ : Type} [DecidableEq α] (f : β → γ) (m : List (α × β)) (k : α) :
    assocGet (m.map (fun kv => (kv.1, f kv.2))) k = (assocGet m k).map f := by
  rw [assocGet, assocGet, List.find?_map]
  have hcomp : ((fun kv : α × γ => decide (kv.1 = k)) ∘ (fun kv : α × β => (kv.1, f kv.2))) =
      (fun kv : α × β => decide (kv.1 = k)) := rfl
  rw [hcomp]
  cases m.find? (fun kv => kv.1 = k) <;> rfl

theorem lookupName_recognized (db : ConceptUuid → ConceptRecord) (l : List ObsRecordRaw)
    (u : ConceptUuid) (h : u ∈ (testConceptsOf db l).map (fun uc => uc.1)) :
    lookupName (testConceptsOf db l) u = nameC db u := by
  rw [lookupName, assocGet_testConceptsOf, if_pos h]
  rfl

theorem lookupMeta_recognized (db : ConceptUuid → ConceptRecord) (l : List ObsRecordRaw)
    (u : ConceptUuid) (h : u ∈ (testConceptsOf db l).map (fun uc => uc.1)) :
    lookupMeta (extractMetaInformation (testConceptsOf db l)) u = metaC db u := by
  rw [lookupMeta, extractMetaInformation, assocGet_map_snd, assocGet_testConceptsOf, if_pos h]
  rfl

theorem recon1_singles_eq (db : ConceptUuid → ConceptRecord) (l : List ObsRecordRaw) :
    (recon1 db l).singles = singlesC db l := by
  rw [recon1, recon1_singles]
  rw [show (Recon1.mk [] [] []).singles = [] from rfl, List.nil_append]
  rw [recognizedEntries_eq, singlesC]
  apply List.map_congr_left
  intro e he
  have hmem : e ∈ l.filter (recogB db) := List.mem_of_mem_filter he
  have hrec : recogB db e := List.of_mem_filter hmem
  have hcode : getEntryConceptClassUuid e ∈ (testConceptsOf db l).map (fun uc => uc.1) :=
    (mem_testUuids db l _).mpr ⟨List.mem_map_of_mem _ (List.mem_of_mem_filter hmem), hrec⟩
  rw [toSingleObsC, toSingleObs, toSingleObs,
    lookupName_recognized db l _ hcode, lookupMeta_recognized db l _ hcode]

theorem recon1_panels_eq (db : ConceptUuid → ConceptRecord) (l : List ObsRecordRaw) :
    (recon1 db l).panels = (panelsRaw (l.filter (recogB db))).map (toPanelPreC db) := by
  rw [recon1, recon1_panels]
  rw [show (Recon1.mk [] [] []).panels = [] from rfl, List.nil_append]
  rw [recognizedEntries_eq]
  apply List.map_congr_left
  intro e he
  have hmem : e ∈ l.filter (recogB db) := List.mem_of_mem_filter he
  have hrec : recogB db e := List.of_mem_filter hmem
  have hcode : getEntryConceptClassUuid e ∈ (testConceptsOf db l).map (fun uc => uc.1) :=
    (mem_testUuids db l _).mpr ⟨List.mem_map_of_mem _ (List.mem_of_mem_filter hmem), hrec⟩
  rw [toPanelPreC, toPanelPre, toPanelPre, lookupName_recognized db l _ hcode]

theorem recon1_memberRefs_eq (db : ConceptUuid → ConceptRecord) (l : List ObsRecordRaw)
    (r : ObsUuid) :
    assocGet (recon1 db l).memberRefs r =
      (match (regsOf db l).reverse.find? (fun kv => kv.1 = r) with
        | some kv => some kv.2
        | none => none) := by
  rw [recon1, recon1_memberRefs, recognizedEntries_eq]
  rw [show (Recon1.mk [] [] []).panels.length = 0 from rfl,
    show (Recon1.mk [] [] []).memberRefs = [] from rfl]
  rw [assocGet_foldl_assocSet]
  rw [regsOf]
  cases (panelRegs 0 (l.filter (recogB db))).reverse.find? (fun kv => kv.1 = r) <;> rfl

theorem regsOf_keys (db : ConceptUuid → ConceptRecord) :
    ∀ (l : List ObsRecordRaw) (off : Nat),
      (panelRegs off l).map Prod.fst = l.flatMap (fun e => e.hasMember.getD []) := by
  intro l
  induction l with
  | nil => intro off; simp [panelRegs]
  | cons e t ih =>
    intro off
    cases he : e.hasMember with
    | some refs =>
      rw [panelRegs, he, List.flatMap_cons, he, List.map_append, ih (off + 1)]
      congr 1
      rw [List.map_map]
      show refs.enum.map ((fun kv : ObsUuid × Nat × Nat => kv.1) ∘
        (fun p : Nat × ObsUuid => (p.2, (off, p.1)))) = refs
      have : ((fun kv : ObsUuid × Nat × Nat => kv.1) ∘
          (fun p : Nat × ObsUuid => (p.2, (off, p.1)))) = Prod.snd := rfl
      rw [this, List.enum_map_snd]
    | none =>
      rw [panelRegs, he, List.flatMap_cons, he, ih off]
      rfl

theorem mem_panelRegs_le (off : Nat) :
    ∀ (l : List ObsRecordRaw) (kv : ObsUuid × (Nat × Nat)), kv ∈ panelRegs off l →
      off ≤ kv.2.1 := by
  intro l
  induction l generalizing off with
  | nil => intro kv h; simp [panelRegs] at h
  | cons e t ih =>
    intro kv h
    cases he : e.hasMember with
    | some refs =>
      rw [panelRegs, he, List.mem_append] at h
      cases h with
      | inl hm =>
        rw [List.mem_map] at hm
        obtain ⟨p, _, hpe⟩ := hm
        have := congrArg (fun x => x.2.1) hpe
        simp at this
        omega
      | inr hm => have := ih (off + 1) kv hm; omega
    | none =>
      rw [panelRegs, he] at h
      exact ih off kv h

theorem panelRegs_snd_nodup :
    ∀ (l : List ObsRecordRaw) (off : Nat), ((panelRegs off l).map Prod.snd).Nodup := by
  intro l
  induction l with
  | nil => intro off; simp [panelRegs]
  | cons e t ih =>
    intro off
    cases he : e.hasMember with
    | some refs =>
      rw [panelRegs, he, List.map_append]
      rw [List.nodup_append]
      refine ⟨?_, ?_, ?_⟩
      · rw [List.map_map]
        have hc : ((fun kv : ObsUuid × Nat × Nat => kv.2) ∘
            (fun p : Nat × ObsUuid => (p.2, (off, p.1)))) =
            ((fun i : Nat => ((off, i) : Nat × Nat)) ∘ Prod.fst) := rfl
        rw [hc, ← List.map_map, List.enum_map_fst]
        exact List.Nodup.map (fun a b hab => congrArg Prod.snd hab) (List.nodup_range _)
      · exact ih (off + 1)
      · intro a ha hb
        rw [List.map_map] at ha
        have hc2 : ((fun kv : ObsUuid × Nat × Nat => kv.2) ∘
            (fun p : Nat × ObsUuid => (p.2, (off, p.1)))) =
            (fun p : Nat × ObsUuid => ((off, p.1) : Nat × Nat)) := rfl
        rw [hc2] at ha
        rw [List.mem_map] at ha hb
        obtain ⟨p, _, hpe⟩ := ha
        obtain ⟨kv, hkv, hkve⟩ := hb
        have h1 : a.1 = off := by rw [← hpe]
        have h2 : off + 1 ≤ a.1 := by
          rw [← hkve]
          exact mem_panelRegs_le (off + 1) t kv hkv
        omega
    | none =>
      rw [panelRegs, he]
      exact ih off

theorem mem_enumFrom_of_getElem? {α : Type} :
    ∀ (l : List α) (k i : Nat) (x : α), l[i]? = some x → (k + i, x) ∈ List.enumFrom k l := by
  intro l
  induction l with
  | nil => intro k i x h; simp at h
  | cons a t ih =>
    intro k i x h
    cases i with
    | zero =>
      rw [List.getElem?_cons_zero] at h
      have hax : a = x := Option.some.inj h
      subst hax
      simp [List.enumFrom]
    | succ i =>
      rw [List.getElem?_cons_succ] at h
      have hmem := ih (k + 1) i x h
      rw [show k + (i + 1) = (k + 1) + i by omega]
      exact List.mem_cons_of_mem _ hmem

theorem panelRegs_of_get :
    ∀ (l : List ObsRecordRaw) (off pj i : Nat) (e : ObsRecordRaw) (r : ObsUuid),
      (panelsRaw l)[pj]? = some e → (e.hasMember.getD [])[i]? = some r →
      (r, (off + pj, i)) ∈ panelRegs off l := by
  intro l
  induction l with
  | nil => intro off pj i e r h1 _; simp [panelsRaw] at h1
  | cons a t ih =>
    intro off pj i e r h1 h2
    cases ha : a.hasMember with
    | some refs =>
      have hpr : panelsRaw (a :: t) = a :: panelsRaw t := by
        simp [panelsRaw, List.filter_cons, ha]
      rw [hpr] at h1
      rw [panelRegs, ha]
      cases pj with
      | zero =>
        rw [List.getElem?_cons_zero] at h1
        have hae : a = e := Option.some.inj h1
        subst hae
        rw [ha] at h2
        simp only [Option.getD_some] at h2
        show (r, (off + 0, i)) ∈
          List.map (fun p : Nat × ObsUuid => (p.2, (off, p.1))) refs.enum ++
            panelRegs (off + 1) t
        apply List.mem_append_left
        rw [List.mem_map]
        refine ⟨(i, r), ?_, rfl⟩
        have hm := mem_enumFrom_of_getElem? refs 0 i r h2
        rw [Nat.zero_add] at hm
        exact hm
      | succ pj =>
        rw [List.getElem?_cons_succ] at h1
        apply List.mem_append_right
        have hmem := ih (off + 1) pj i e r h1 h2
        rw [show off + (pj + 1) = (off + 1) + pj by omega]
        exact hmem
    | none =>
      have hpr : panelsRaw (a :: t) = panelsRaw t := by
        simp [panelsRaw, List.filter_cons, ha]
      rw [hpr] at h1
      rw [panelRegs, ha]
      exact ih off pj i e r h1 h2

theorem assocGet_regs_nodup (db : ConceptUuid → ConceptRecord) (l : List ObsRecordRaw)
    (h1 : ((regsOf db l).map Prod.fst).Nodup) (r : ObsUuid) (loc : Nat × Nat)
    (hmem : (r, loc) ∈ regsOf db l) :
    assocGet (recon1 db l).memberRefs r = some loc := by
  rw [recon1_memberRefs_eq, find?_reverse_of_nodup_keys _ _ h1]
  cases hf : (regsOf db l).find? (fun kv => kv.1 = r) with
  | none =>
    rw [List.find?_eq_none] at hf
    exact absurd (by simp) (hf _ hmem)
  | some kv =>
    have hkey : kv.1 = r := by simpa using List.find?_some hf
    have hkv : kv ∈ regsOf db l := List.mem_of_find?_eq_some hf
    have hval : kv.2 = loc := by
      apply assoc_value_unique (regsOf db l) h1 r
      · rw [← hkey]; exact hkv
      · exact hmem
    show some kv.2 = some loc
    rw [hval]

theorem assocGet_memberRefs_none_iff (db : ConceptUuid → ConceptRecord)
    (l : List ObsRecordRaw) (r : ObsUuid) :
    assocGet (recon1 db l).memberRefs r = none ↔ r ∉ (regsOf db l).map Prod.fst := by
  rw [recon1_memberRefs_eq]
  cases hf : (regsOf db l).reverse.find? (fun kv => kv.1 = r) with
  | none =>
    rw [List.find?_eq_none] at hf
    simp only [true_iff]
    intro hmem
    rw [List.mem_map] at hmem
    obtain ⟨kv, hkv, hkve⟩ := hmem
    exact hf kv (List.mem_reverse.mpr hkv) (by simp [hkve])
  | some kv =>
    have hkey : kv.1 = r := by simpa using List.find?_some hf
    have hkv : kv ∈ regsOf db l := List.mem_reverse.mp (List.mem_of_find?_eq_some hf)
    show some kv.2 = none ↔ r ∉ (regsOf db l).map Prod.fst
    constructor
    · intro h; simp at h
    · intro h
      exact absurd (hkey ▸ List.mem_map_of_mem Prod.fst hkv) h

theorem memberRefs_some_mem_regsOf (db : ConceptUuid → ConceptRecord) (l : List ObsRecordRaw)
    (r : ObsUuid) (loc : Nat × Nat)
    (h : assocGet (recon1 db l).memberRefs r = some loc) :
    (r, loc) ∈ regsOf db l := by
  have hmem := memberRefs_provenance db l r loc h
  rw [recognizedEntries_eq] at hmem
  exact hmem

theorem recon2_placements_eq (db : ConceptUuid → ConceptRecord) (l : List ObsRecordRaw) :
    (recon2 db l).placements =
      (streamOf db l).foldl (fun acc kv => assocSet acc kv.1 kv.2) [] := by
  rw [recon2, recon2_placements]
  rfl

theorem filterMap_loc_keys_nodup (f : SingleObs → Option (Nat × Nat))
    (hinj : ∀ s s2 loc, f s = some loc → f s2 = some loc → s.id = s2.id) :
    ∀ (ss : List SingleObs), ((ss.map (fun s => s.id)).Nodup) →
      ((ss.filterMap (fun s => (f s).map (fun loc => (loc, s)))).map Prod.fst).Nodup := by
  intro ss
  induction ss with
  | nil => intro _; simp
  | cons s t ih =>
    intro hnd
    rw [List.map_cons, List.nodup_cons] at hnd
    obtain ⟨hsid, hndt⟩ := hnd
    rw [List.filterMap_cons]
    cases hg : f s with
    | none => exact ih hndt
    | some loc =>
      show (((loc, s) :: t.filterMap (fun s => (f s).map (fun loc => (loc, s)))).map
        Prod.fst).Nodup
      rw [List.map_cons, List.nodup_cons]
      refine ⟨?_, ih hndt⟩
      intro hmem
      rw [List.mem_map] at hmem
      obtain ⟨kv, hkv, hkve⟩ := hmem
      rw [List.mem_filterMap] at hkv
      obtain ⟨s2, hs2, hmap⟩ := hkv
      cases hg2 : f s2 with
      | none => rw [hg2] at hmap; simp at hmap
      | some loc2 =>
        rw [hg2] at hmap
        have hmap2 : some ((loc2, s2) : (Nat × Nat) × SingleObs) = some kv := hmap
        have hmap3 := Option.some.inj hmap2
        have hl : loc2 = loc := by
          have h1 : loc2 = kv.1 := congrArg Prod.fst hmap3
          rw [h1, hkve]
        have hid : s2.id = s.id := hinj s2 s loc (hl ▸ hg2) hg
        apply hsid
        rw [← hid]
        exact List.mem_map_of_mem _ hs2

theorem stream_keys_nodup (db : ConceptUuid → ConceptRecord) (l : List ObsRecordRaw)
    (h2 : (((l.filter (recogB db)).filter (fun e => e.hasMember.isNone)).map
      (fun e => e.id)).Nodup) :
    ((streamOf db l).map Prod.fst).Nodup := by
  rw [streamOf]
  apply filterMap_loc_keys_nodup
  · intro s s2 loc hgs hgs2
    have hm1 : (s.id, loc) ∈ regsOf db l := memberRefs_some_mem_regsOf db l _ _ hgs
    have hm2 : (s2.id, loc) ∈ regsOf db l := memberRefs_some_mem_regsOf db l _ _ hgs2
    exact assoc_key_unique _ (by rw [regsOf]; exact panelRegs_snd_nodup _ 0) _ _ _ hm1 hm2
  · rw [recon1_singles_eq, singlesC, List.map_map]
    exact h2

theorem stream_find_eq (f : SingleObs → Option (Nat × Nat)) (loc : Nat × Nat) (r : ObsUuid) :
    ∀ (ss : List SingleObs),
      (∀ s ∈ ss, (f s = some loc ↔ s.id = r)) →
      ((ss.filterMap (fun s => (f s).map (fun l2 => (l2, s)))).find? (fun kv => kv.1 = loc)) =
        (ss.find? (fun s => s.id = r)).map (fun s => (loc, s)) := by
  intro ss
  induction ss with
  | nil => intro _; rfl
  | cons s t ih =>
    intro hiff
    have hiffs := hiff s (List.mem_cons_self s t)
    have hifft : ∀ s2 ∈ t, (f s2 = some loc ↔ s2.id = r) :=
      fun s2 h => hiff s2 (List.mem_cons_of_mem _ h)
    rw [List.filterMap_cons]
    cases hg : f s with
    | none =>
      have hsr : ¬ (s.id = r) := by
        intro h
        have hc := hiffs.mpr h
        rw [hg] at hc
        simp at hc
      rw [List.find?_cons_of_neg _ (by simp [hsr])]
      exact ih hifft
    | some loc2 =>
      show (((loc2, s) :: t.filterMap (fun s => (f s).map (fun l2 => (l2, s)))).find?
          (fun kv => kv.1 = loc)) = _
      by_cases hl : loc2 = loc
      · subst hl
        have hsr : s.id = r := hiffs.mp hg
        rw [List.find?_cons_of_pos _ (by simp)]
        rw [List.find?_cons_of_pos _ (by simp [hsr])]
        rfl
      · have hsr : ¬ (s.id = r) := by
          intro h
          have hc := hiffs.mpr h
          rw [hg] at hc
          exact hl (Option.some.inj hc)
        rw [List.find?_cons_of_neg _ (by simp [hl])]
        rw [List.find?_cons_of_neg _ (by simp [hsr])]
        exact ih hifft

theorem panels_get_regs (db : ConceptUuid → ConceptRecord) (l : List ObsRecordRaw)
    (pidx i : Nat) (r : ObsUuid) (pre : PanelPre)
    (hpre : (recon1 db l).panels[pidx]? = some pre)
    (hr : pre.hasMember[i]? = some r) :
    (r, (pidx, i)) ∈ regsOf db l := by
  rw [recon1_panels_eq, List.getElem?_map] at hpre
  cases hg : (panelsRaw (l.filter (recogB db)))[pidx]? with
  | none => rw [hg] at hpre; simp at hpre
  | some e =>
    rw [hg] at hpre
    have hpre2 : some (toPanelPreC db e) = some pre := hpre
    have hpree : pre = toPanelPreC db e := (Option.some.inj hpre2).symm
    have hhm : pre.hasMember = e.hasMember.getD [] := by rw [hpree]; rfl
    rw [hhm] at hr
    have hmem := panelRegs_of_get (l.filter (recogB db)) 0 pidx i e r hg hr
    rw [Nat.zero_add] at hmem
    exact hmem

theorem placements_slot (db : ConceptUuid → ConceptRecord) (l : List ObsRecordRaw)
    (h1 : ((regsOf db l).map Prod.fst).Nodup)
    (h2 : (((l.filter (recogB db)).filter (fun e => e.hasMember.isNone)).map
      (fun e => e.id)).Nodup)
    (pidx i : Nat) (r : ObsUuid) (pre : PanelPre)
    (hpre : (recon1 db l).panels[pidx]? = some pre)
    (hr : pre.hasMember[i]? = some r) :
    assocGet (recon2 db l).placements (pidx, i) =
      (recon1 db l).singles.find? (fun s => s.id = r) := by
  have hreg : (r, (pidx, i)) ∈ regsOf db l := panels_get_regs db l pidx i r pre hpre hr
  have hiff : ∀ s ∈ (recon1 db l).singles,
      (assocGet (recon1 db l).memberRefs s.id = some (pidx, i) ↔ s.id = r) := by
    intro s _
    constructor
    · intro hg
      have hm1 : (s.id, (pidx, i)) ∈ regsOf db l := memberRefs_some_mem_regsOf db l _ _ hg
      exact assoc_key_unique _ (by rw [regsOf]; exact panelRegs_snd_nodup _ 0) _ _ _ hm1 hreg
    · intro hid
      rw [hid]
      exact assocGet_regs_nodup db l h1 r (pidx, i) hreg
  rw [recon2_placements_eq, assocGet_foldl_assocSet]
  rw [find?_reverse_of_nodup_keys _ _ (stream_keys_nodup db l h2)]
  rw [streamOf, stream_find_eq _ _ r _ hiff]
  cases (recon1 db l).singles.find? (fun s => s.id = r) <;> rfl

theorem resolvePanel_eq_canonical (db : ConceptUuid → ConceptRecord) (l : List ObsRecordRaw)
    (h1 : ((regsOf db l).map Prod.fst).Nodup)
    (h2 : (((l.filter (recogB db)).filter (fun e => e.hasMember.isNone)).map
      (fun e => e.id)).Nodup)
    (pidx : Nat) (pre : PanelPre)
    (hpre : (recon1 db l).panels[pidx]? = some pre) :
    resolvePanel (recon2 db l).placements pidx pre = resolvePanelC db l pre := by
  rw [resolvePanel, resolvePanelC]
  have hmembers : (List.range pre.hasMember.length).map
      (fun i => assocGet (recon2 db l).placements (pidx, i)) =
      pre.hasMember.map (fun r => (singlesC db l).find? (fun s => s.id = r)) := by
    apply List.ext_getElem?
    intro i
    rw [List.getElem?_map, List.getElem?_map]
    by_cases hi : i < pre.hasMember.length
    · rw [List.getElem?_range hi, List.getElem?_eq_getElem hi]
      show some (assocGet (recon2 db l).placements (pidx, i)) =
        some ((singlesC db l).find? (fun s => s.id = pre.hasMember[i]))
      have hr : pre.hasMember[i]? = some (pre.hasMember[i]) := List.getElem?_eq_getElem hi
      rw [placements_slot db l h1 h2 pidx i _ pre hpre hr]
      rw [recon1_singles_eq]
    · rw [List.getElem?_eq_none (by rw [List.length_range]; omega),
        List.getElem?_eq_none (by omega : pre.hasMember.length ≤ i)]
      rfl
  rw [hmembers]

theorem resolvedPanels_eq_canonical (db : ConceptUuid → ConceptRecord) (l : List ObsRecordRaw)
    (h1 : ((regsOf db l).map Prod.fst).Nodup)
    (h2 : (((l.filter (recogB db)).filter (fun e => e.hasMember.isNone)).map
      (fun e => e.id)).Nodup) :
    resolvedPanelsOf db l =
      (panelsRaw (l.filter (recogB db))).map
        (fun e => resolvePanelC db l (toPanelPreC db e)) := by
  rw [resolvedPanelsOf]
  apply List.ext_getElem?
  intro i
  rw [List.getElem?_map, List.getElem?_map, List.getElem?_enum]
  cases hg : (panelsRaw (l.filter (recogB db)))[i]? with
  | none =>
    have hnone : (recon1 db l).panels[i]? = none := by
      rw [recon1_panels_eq, List.getElem?_map, hg]
      rfl
    rw [hnone]
    rfl
  | some e =>
    have hsome : (recon1 db l).panels[i]? = some (toPanelPreC db e) := by
      rw [recon1_panels_eq, List.getElem?_map, hg]
      rfl
    rw [hsome]
    show some (resolvePanel (recon2 db l).placements i (toPanelPreC db e)) = _
    rw [resolvePanel_eq_canonical db l h1 h2 i _ hsome]
    rfl

theorem declaredB_iff (db : ConceptUuid → ConceptRecord) (l : List ObsRecordRaw) (r : ObsUuid) :
    declaredB db l r = true ↔ r ∈ (regsOf db l).map Prod.fst := by
  rw [declaredB, List.any_eq_true]
  constructor
  · rintro ⟨kv, hkv, hk⟩
    have : kv.1 = r := by simpa using hk
    exact this ▸ List.mem_map_of_mem Prod.fst hkv
  · intro h
    rw [List.mem_map] at h
    obtain ⟨kv, hkv, hkve⟩ := h
    exact ⟨kv, hkv, by simp [hkve]⟩

theorem standalone_eq_canonical (db : ConceptUuid → ConceptRecord) (l : List ObsRecordRaw) :
    (recon2 db l).standalone = (singlesC db l).filter (fun s => ! declaredB db l s.id) := by
  rw [recon2, recon2_standalone]
  rw [show (Recon2.mk [] []).standalone = [] from rfl, List.nil_append]
  rw [recon1_singles_eq]
  apply List.filter_congr
  intro s _
  show (assocGet (recon1 db l).memberRefs s.id).isNone = ! declaredB db l s.id
  cases hg : assocGet (recon1 db l).memberRefs s.id with
  | none =>
    have hnot := (assocGet_memberRefs_none_iff db l s.id).mp hg
    have hd : declaredB db l s.id = false := by
      cases hd2 : declaredB db l s.id with
      | false => rfl
      | true => exact absurd ((declaredB_iff db l s.id).mp hd2) hnot
    rw [hd]
    rfl
  | some loc =>
    have hmem : (s.id, loc) ∈ regsOf db l := memberRefs_some_mem_regsOf db l _ _ hg
    have hd : declaredB db l s.id = true := by
      rw [declaredB_iff]
      exact List.mem_map_of_mem Prod.fst hmem
    rw [hd]
    rfl

theorem singlesC_ids (db : ConceptUuid → ConceptRecord) (l : List ObsRecordRaw) :
    (singlesC db l).map (fun s => s.id) =
      ((l.filter (recogB db)).filter (fun e => e.hasMember.isNone)).map (fun e => e.id) := by
  rw [singlesC, List.map_map]
  rfl

theorem regsOf_keys_perm (db : ConceptUuid → ConceptRecord) (l l2 : List ObsRecordRaw)
    (h : l.Perm l2) :
    ((regsOf db l).map Prod.fst).Perm ((regsOf db l2).map Prod.fst) := by
  rw [regsOf, regsOf, regsOf_keys db _ 0, regsOf_keys db _ 0]
  exact List.Perm.flatMap_right _ (h.filter _)

theorem singlesC_perm (db : ConceptUuid → ConceptRecord) (l l2 : List ObsRecordRaw)
    (h : l.Perm l2) : (singlesC db l).Perm (singlesC db l2) :=
  List.Perm.map _ ((h.filter _).filter _)

theorem singlesC_find_eq (db : ConceptUuid → ConceptRecord) (l l2 : List ObsRecordRaw)
    (h : l.Perm l2)
    (h2 : (((l.filter (recogB db)).filter (fun e => e.hasMember.isNone)).map
      (fun e => e.id)).Nodup) (r : ObsUuid) :
    (singlesC db l).find? (fun s => s.id = r) =
      (singlesC db l2).find? (fun s => s.id = r) := by
  have hnd : ((singlesC db l).map (fun s => s.id)).Nodup := by
    rw [singlesC_ids]
    exact h2
  have hnd2 : ((singlesC db l2).map (fun s => s.id)).Nodup :=
    (((singlesC_perm db l l2 h).map _).nodup_iff).mp hnd
  exact find?_eq_of_mem_iff_of_nodup_keys (fun s => s.id) _ _ hnd
    (fun x => (singlesC_perm db l l2 h).mem_iff) hnd2 r

theorem resolvePanelC_congr (db : ConceptUuid → ConceptRecord) (l l2 : List ObsRecordRaw)
    (h : l.Perm l2)
    (h2 : (((l.filter (recogB db)).filter (fun e => e.hasMember.isNone)).map
      (fun e => e.id)).Nodup) (pre : PanelPre) :
    resolvePanelC db l pre = resolvePanelC db l2 pre := by
  have hm : pre.hasMember.map (fun r => (singlesC db l).find? (fun s => s.id = r)) =
      pre.hasMember.map (fun r => (singlesC db l2).find? (fun s => s.id = r)) :=
    List.map_congr_left (fun r _ => singlesC_find_eq db l l2 h h2 r)
  rw [resolvePanelC, resolvePanelC, hm]

theorem declaredB_congr (db : ConceptUuid → ConceptRecord) (l l2 : List ObsRecordRaw)
    (h : l.Perm l2) (r : ObsUuid) : declaredB db l r = declaredB db l2 r := by
  have hkp := regsOf_keys_perm db l l2 h
  cases hd : declaredB db l2 r with
  | true =>
    rw [(declaredB_iff db l r).mpr (hkp.mem_iff.mpr ((declaredB_iff db l2 r).mp hd))]
  | false =>
    cases hd1 : declaredB db l r with
    | false => rfl
    | true =>
      have := hkp.mem_iff.mp ((declaredB_iff db l r).mp hd1)
      rw [← declaredB_iff db l2 r] at this
      rw [hd] at this
      simp at this

theorem groupFor_perm (db : ConceptUuid → ConceptRecord) (l l2 : List ObsRecordRaw)
    (hperm : l.Perm l2)
    (h1 : ((regsOf db l).map Prod.fst).Nodup)
    (h2 : (((l.filter (recogB db)).filter (fun e => e.hasMember.isNone)).map
      (fun e => e.id)).Nodup)
    (u : ConceptUuid) :
    (groupFor db l u).Perm (groupFor db l2 u) := by
  have h1b : ((regsOf db l2).map Prod.fst).Nodup :=
    ((regsOf_keys_perm db l l2 hperm).nodup_iff).mp h1
  have h2b : (((l2.filter (recogB db)).filter (fun e => e.hasMember.isNone)).map
      (fun e => e.id)).Nodup := by
    rw [← singlesC_ids]
    exact (((singlesC_perm db l l2 hperm).map _).nodup_iff).mp
      (by rw [singlesC_ids]; exact h2)
  rw [groupFor, groupFor,
    resolvedPanels_eq_canonical db l h1 h2, resolvedPanels_eq_canonical db l2 h1b h2b,
    standalone_eq_canonical db l, standalone_eq_canonical db l2]
  apply List.Perm.append
  · have hF : (panelsRaw (l.filter (recogB db))).map
        (fun e => resolvePanelC db l (toPanelPreC db e)) =
        (panelsRaw (l.filter (recogB db))).map
          (fun e => resolvePanelC db l2 (toPanelPreC db e)) :=
      List.map_congr_left (fun e _ => resolvePanelC_congr db l l2 hperm h2 (toPanelPreC db e))
    rw [hF]
    have hpraw : (panelsRaw (l.filter (recogB db))).Perm
        (panelsRaw (l2.filter (recogB db))) := by
      simp only [panelsRaw]
      exact (hperm.filter _).filter _
    exact ((hpraw.map _).filter _).map _
  · have hpred : (singlesC db l).filter (fun s => ! declaredB db l s.id) =
        (singlesC db l).filter (fun s => ! declaredB db l2 s.id) :=
      List.filter_congr (fun s _ => by rw [declaredB_congr db l l2 hperm s.id])
    rw [hpred]
    exact ((((singlesC_perm db l l2 hperm).filter _).filter _).map _)

theorem sortedGroup_eq (db : ConceptUuid → ConceptRecord) (l l2 : List ObsRecordRaw)
    (hperm : l.Perm l2)
    (h1 : ((regsOf db l).map Prod.fst).Nodup)
    (h2 : (((l.filter (recogB db)).filter (fun e => e.hasMember.isNone)).map
      (fun e => e.id)).Nodup)
    (u : ConceptUuid)
    (h3 : ((groupFor db l u).map PEntry.effectiveDateTime).Nodup) :
    (groupFor db l u).insertionSort (fun a b => b.effectiveDateTime ≤ a.effectiveDateTime) =
      (groupFor db l2 u).insertionSort
        (fun a b => b.effectiveDateTime ≤ a.effectiveDateTime) := by
  haveI : IsTotal PEntry (fun a b => b.effectiveDateTime ≤ a.effectiveDateTime) :=
    ⟨fun a b => le_total b.effectiveDateTime a.effectiveDateTime⟩
  haveI : IsTrans PEntry (fun a b => b.effectiveDateTime ≤ a.effectiveDateTime) :=
    ⟨fun a b c hab hbc => le_trans hbc hab⟩
  have hgp := groupFor_perm db l l2 hperm h1 h2 u
  have hp1 : (List.insertionSort (fun a b : PEntry => b.effectiveDateTime ≤ a.effectiveDateTime)
      (groupFor db l u)).Perm
      (List.insertionSort (fun a b : PEntry => b.effectiveDateTime ≤ a.effectiveDateTime)
        (groupFor db l2 u)) :=
    ((List.perm_insertionSort _ _).trans hgp).trans (List.perm_insertionSort _ _).symm
  apply sorted_strict_desc_eq_of_perm PEntry.effectiveDateTime _ _ hp1
  · have hsorted : List.Pairwise
        (fun a b : PEntry => b.effectiveDateTime ≤ a.effectiveDateTime)
        (List.insertionSort (fun a b : PEntry => b.effectiveDateTime ≤ a.effectiveDateTime)
          (groupFor db l u)) :=
      List.sorted_insertionSort _ _
    have hnd : ((List.insertionSort
        (fun a b : PEntry => b.effectiveDateTime ≤ a.effectiveDateTime)
        (groupFor db l u)).map PEntry.effectiveDateTime).Nodup :=
      (((List.perm_insertionSort _ _).map _).nodup_iff).mpr h3
    have hne := List.pairwise_map.mp hnd
    apply (hsorted.and hne).imp
    intro a b hab
    have h1 := hab.1
    have h2 := hab.2
    omega
  · have hsorted : List.Pairwise
        (fun a b : PEntry => b.effectiveDateTime ≤ a.effectiveDateTime)
        (List.insertionSort (fun a b : PEntry => b.effectiveDateTime ≤ a.effectiveDateTime)
          (groupFor db l2 u)) :=
      List.sorted_insertionSort _ _
    have h3b : ((groupFor db l2 u).map PEntry.effectiveDateTime).Nodup :=
      ((hgp.map _).nodup_iff).mp h3
    have hnd : ((List.insertionSort
        (fun a b : PEntry => b.effectiveDateTime ≤ a.effectiveDateTime)
        (groupFor db l2 u)).map PEntry.effectiveDateTime).Nodup :=
      (((List.perm_insertionSort _ _).map _).nodup_iff).mpr h3b
    have hne := List.pairwise_map.mp hnd
    apply (hsorted.and hne).imp
    intro a b hab
    have h1 := hab.1
    have h2 := hab.2
    omega

theorem aggGet_eq_find? (d : PatientData) (hnd : (d.map Prod.fst).Nodup) (k : String) :
    aggGet d k = (d.find? (fun kv => kv.1 = k)).map (fun kv => kv.2) := by
  rw [aggGet, find?_reverse_of_nodup_keys d k hnd]

theorem filterMap_keys_nodup {α β : Type} (F : α → Option (String × β)) (keyf : α → String)
    (hF : ∀ u kv, F u = some kv → kv.1 = keyf u) :
    ∀ l : List α, (l.map keyf).Nodup → ((l.filterMap F).map Prod.fst).Nodup := by
  intro l
  induction l with
  | nil => intro _; simp
  | cons u t ih =>
    intro hnd
    rw [List.map_cons, List.nodup_cons] at hnd
    obtain ⟨hu, hndt⟩ := hnd
    rw [List.filterMap_cons]
    cases hFu : F u with
    | none => exact ih hndt
    | some kv =>
      show ((kv :: t.filterMap F).map Prod.fst).Nodup
      rw [List.map_cons, List.nodup_cons]
      refine ⟨?_, ih hndt⟩
      intro hmem
      rw [List.mem_map] at hmem
      obtain ⟨kv2, hkv2, hkve⟩ := hmem
      rw [List.mem_filterMap] at hkv2
      obtain ⟨u2, hu2, hFu2⟩ := hkv2
      apply hu
      have e1 : kv.1 = keyf u := hF u kv hFu
      have e2 : kv2.1 = keyf u2 := hF u2 kv2 hFu2
      rw [← e1, ← hkve, e2]
      exact List.mem_map_of_mem _ hu2

theorem reconstruct_eq_filterMap (db : ConceptUuid → ConceptRecord) (l : List ObsRecordRaw) :
    reconstruct db l = ((testConceptsOf db l).map (fun uc => uc.1)).filterMap
      (fun u => if (groupFor db l u).length ≠ 0 then
          match assocGet (testConceptsOf db l) u with
          | some r =>
            some (r.display,
              { entries := (groupFor db l u).insertionSort
                  (fun a b => b.effectiveDateTime ≤ a.effectiveDateTime),
                type := r.conceptClass.display, uuid := u })
          | none => none
        else none) := by
  rw [reconstruct, List.filterMap_map]
  rfl

theorem reconstruct_key (db : ConceptUuid → ConceptRecord) (l : List ObsRecordRaw)
    (u : ConceptUuid) (kv : String × ObsGroup)
    (h : (if (groupFor db l u).length ≠ 0 then
        match assocGet (testConceptsOf db l) u with
        | some r =>
          some (r.display,
            { entries := (groupFor db l u).insertionSort
                (fun a b => b.effectiveDateTime ≤ a.effectiveDateTime),
              type := r.conceptClass.display, uuid := u })
        | none => none
      else none) = some kv) : kv.1 = (db u).display := by
  split at h
  · cases hg : assocGet (testConceptsOf db l) u with
    | none => rw [hg] at h; simp at h
    | some r =>
      rw [hg] at h
      rw [assocGet_testConceptsOf] at hg
      split at hg
      · have hr : r = db u := by
          have := Option.some.inj hg
          rw [this]
        have := Option.some.inj h
        rw [← this, hr]
      · simp at hg
  · simp at h

theorem displays_eq (db : ConceptUuid → ConceptRecord) (l : List ObsRecordRaw) :
    (testConceptsOf db l).map (fun uc => uc.2.display) =
      ((testConceptsOf db l).map (fun uc => uc.1)).map (fun u => (db u).display) := by
  rw [testConceptsOf, loadPresentConcepts, List.filter_map, List.map_map, List.map_map,
    List.map_map]
  rfl

theorem reconstruct_keys_nodup (db : ConceptUuid → ConceptRecord) (l : List ObsRecordRaw)
    (h4 : ((testConceptsOf db l).map (fun uc => uc.2.display)).Nodup) :
    ((reconstruct db l).map Prod.fst).Nodup := by
  rw [reconstruct_eq_filterMap]
  apply filterMap_keys_nodup _ (fun u => (db u).display)
  · intro u kv h
    exact reconstruct_key db l u kv h
  · rw [← displays_eq]
    exact h4

theorem reconstruct_mem_iff (db : ConceptUuid → ConceptRecord) (l : List ObsRecordRaw)
    (kv : String × ObsGroup) :
    kv ∈ reconstruct db l ↔
      ∃ u ∈ (testConceptsOf db l).map (fun uc => uc.1),
        groupFor db l u ≠ [] ∧
        kv = ((db u).display,
          { entries := (groupFor db l u).insertionSort
              (fun a b => b.effectiveDateTime ≤ a.effectiveDateTime),
            type := (db u).conceptClass.display, uuid := u }) := by
  rw [reconstruct_eq_filterMap, List.mem_filterMap]
  constructor
  · rintro ⟨u, hu, hF⟩
    refine ⟨u, hu, ?_, ?_⟩
    · split at hF
      · rename_i hlen
        intro hnil
        rw [hnil] at hlen
        simp at hlen
      · simp at hF
    · split at hF
      · rw [assocGet_testConceptsOf, if_pos hu] at hF
        have := Option.some.inj hF
        rw [← this]
      · simp at hF
  · rintro ⟨u, hu, hne, hkv⟩
    refine ⟨u, hu, ?_⟩
    rw [if_pos (by simpa using hne), assocGet_testConceptsOf, if_pos hu]
    rw [hkv]

/-- C2 (amended): reconstruction is order-independent — permuting the
raw entry list yields an aggregate with identical groups under every
display name — provided (a) no member uuid is declared by two panel
slots, (b) recognized member-less entries have pairwise distinct ids,
(c) entries of one group have pairwise distinct effective timestamps,
and (d) distinct recognized concepts have distinct display names. -/
theorem C2_reconstruct_order_independent :
    ∀ (db : ConceptUuid → ConceptRecord) (l l2 : List ObsRecordRaw),
      l.Perm l2 →
      ((regsOf db l).map Prod.fst).Nodup →
      (((l.filter (recogB db)).filter (fun e => e.hasMember.isNone)).map
        (fun e => e.id)).Nodup →
      (∀ u ∈ (testConceptsOf db l).map (fun uc => uc.1),
        ((groupFor db l u).map PEntry.effectiveDateTime).Nodup) →
      ((testConceptsOf db l).map (fun uc => uc.2.display)).Nodup →
      ∀ name, aggGet (reconstruct db l) name = aggGet (reconstruct db l2) name := by
  intro db l l2 hperm h1 h2 h3 h4 name
  have htc : (testConceptsOf db l).Perm (testConceptsOf db l2) := by
    rw [testConceptsOf, testConceptsOf, loadPresentConcepts, loadPresentConcepts]
    exact ((setDedup_perm _ _ (hperm.map _)).map _).filter _
  have h4b : ((testConceptsOf db l2).map (fun uc => uc.2.display)).Nodup :=
    ((htc.map _).nodup_iff).mp h4
  have hmemiff : ∀ kv, kv ∈ reconstruct db l ↔ kv ∈ reconstruct db l2 := by
    intro kv
    rw [reconstruct_mem_iff, reconstruct_mem_iff]
    constructor
    · rintro ⟨u, hu, hne, hkv⟩
      have hu2 : u ∈ (testConceptsOf db l2).map (fun uc => uc.1) :=
        (htc.map _).mem_iff.mp hu
      have hgp := groupFor_perm db l l2 hperm h1 h2 u
      refine ⟨u, hu2, ?_, ?_⟩
      · intro hnil
        rw [hnil] at hgp
        exact hne hgp.eq_nil
      · rw [hkv, sortedGroup_eq db l l2 hperm h1 h2 u (h3 u hu)]
    · rintro ⟨u, hu2, hne2, hkv⟩
      have hu : u ∈ (testConceptsOf db l).map (fun uc => uc.1) :=
        (htc.map _).mem_iff.mpr hu2
      have hgp := groupFor_perm db l l2 hperm h1 h2 u
      refine ⟨u, hu, ?_, ?_⟩
      · intro hnil
        rw [hnil] at hgp
        exact hne2 hgp.symm.eq_nil
      · rw [hkv, sortedGroup_eq db l l2 hperm h1 h2 u (h3 u hu)]
  rw [aggGet_eq_find? _ (reconstruct_keys_nodup db l h4) name,
    aggGet_eq_find? _ (reconstruct_keys_nodup db l2 h4b) name,
    find?_eq_of_mem_iff_of_nodup_keys Prod.fst _ _ (reconstruct_keys_nodup db l h4)
      hmemiff (reconstruct_keys_nodup db l2 h4b) name]

/-- C2 counterexample: with two panels declaring the same member uuid,
the later registration wins, so permuting the panels moves the single
into the other panel's slot and the aggregates differ (not merely in
order). -/
theorem C2_counterexample :
    entries2cex.Perm entries2cexPerm ∧
    ¬ (aggGet (reconstruct db2cex entries2cex) "Panel" =
        aggGet (reconstruct db2cex entries2cexPerm) "Panel") := by
  constructor
  · decide
  · decide

/-- Witness for C2 (amended): panel and member appear in either order,
the reconstructed "CBC" group is the same. -/
theorem C2_witness :
    aggGet (reconstruct dbEx entriesEx) "CBC" =
      aggGet (reconstruct dbEx entriesExPerm) "CBC" :=
  C2_reconstruct_order_independent dbEx entriesEx entriesExPerm (by decide) (by decide)
    (by decide) (by decide) (by decide) "CBC"
